import Mathlib

/-!
Verification development for the evccdb library: a shallow embedding of the
schema-reconciling transfer engine (`transfer.go`) and of the
multi-representation rename engine (`rename.go`), together with proofs of
the specified properties.

Modelling conventions:
* strings are lists of characters (`Str`);
* SQLite's `LIKE` operator is modelled with its default semantics:
  `%` matches any sequence, `_` any single character, and ASCII letters
  compare case-insensitively; plain `=` comparison on text is exact;
* SQLite's `changes()` counter (Go `RowsAffected`) for an
  `UPDATE ... WHERE c = ?` statement is the number of rows matching the
  `WHERE` clause;
* a `configs.value` blob either decodes as a JSON object (`Blob.obj`,
  a finite field map) or fails structured decoding (`Blob.raw`, plain text);
  re-encoding a decoded object is modelled as the identity on the field map,
  which captures field content but not byte-level formatting;
* the rename engine works on the three typed tables (`sessions`,
  `settings`, `configs`); the copy phase of `Transfer` treats tables
  generically (named tables of rows over named columns); the database state
  for `Transfer` is the pair of the two views.
-/

namespace Evccdb

/-- Characters of a text value. -/
abbrev Str := List Char

/-- Shorthand turning a string literal into its character list. -/
def str (s : String) : Str := s.data

/-- ASCII lower-casing of one character, as used by SQLite's default
`LIKE` comparison. -/
def lowerChar (c : Char) : Char :=
  if 'A' ≤ c ∧ c ≤ 'Z' then Char.ofNat (c.toNat + 32) else c

/-- SQLite `LIKE` pattern matching (default behaviour): `%` matches any
sequence of characters (equivalently, the rest of the pattern matches
some suffix of the text), `_` matches exactly one character, and other
characters compare ASCII-case-insensitively. -/
def likeMatch : Str → Str → Bool
  | [], s => s.isEmpty
  | a :: ps, s =>
    if a = '%' then (List.tails s).any fun t => likeMatch ps t
    else
      match s with
      | [] => false
      | c :: ss => ((a = '_') || (lowerChar a = lowerChar c)) && likeMatch ps ss

/-- Go `strings.Contains s pat`: does `pat` occur as a contiguous substring? -/
def hasSub : Str → Str → Bool
  | [], pat => pat.isEmpty
  | s@(_ :: t), pat => pat.isPrefixOf s || hasSub t pat

/-- Go `strings.Replace s pat rep 1`: replace the first (leftmost)
occurrence of `pat` in `s` by `rep`; if `pat` does not occur, return `s`
unchanged. -/
def replace1 : Str → Str → Str → Str
  | [], pat, rep => if pat.isEmpty then rep else []
  | s@(c :: t), pat, rep =>
    if pat.isPrefixOf s then rep ++ s.drop pat.length
    else c :: replace1 t pat rep

/-- Index of the first occurrence of `pat` in `s`, if any. -/
def firstOcc : Str → Str → Option Nat
  | [], pat => if pat.isEmpty then some 0 else none
  | s@(_ :: t), pat =>
    if pat.isPrefixOf s then some 0
    else (firstOcc t pat).map (· + 1)

/-- Go `strings.TrimPrefix s pre`: drop `pre` when it is a literal prefix
of `s`, otherwise return `s` unchanged. -/
def trimPre (s pre : Str) : Str :=
  if pre.isPrefixOf s then s.drop pre.length else s

/-- A row of the `settings` key/value table. -/
structure Setting where
  key : Str
  value : Str
deriving DecidableEq

/-- A row of the `sessions` table: the two name-bearing columns
(`loadpoint` is `NOT NULL`, `vehicle` is nullable) plus an opaque tag
standing for all remaining columns. -/
structure SessionRow where
  loadpoint : Str
  vehicle : Option Str
  payload : Nat
deriving DecidableEq

/-- A decoded JSON value, as far as the rename engine inspects it: a
string, or anything else (opaque tag). -/
inductive JVal where
  | jstr (s : Str)
  | jother (tag : Nat)
deriving DecidableEq

/-- A `configs.value` blob: either it decodes as a JSON object
(`json.Unmarshal` into a string-keyed map succeeds) or it is raw text
(structured decoding fails). -/
inductive Blob where
  | obj (fields : List (Str × JVal))
  | raw (text : Str)
deriving DecidableEq

/-- A row of the `configs` table: primary key `id`, discriminator
`class`, the serialized blob `value`, and an opaque tag for the remaining
columns. -/
structure ConfigRow where
  id : Nat
  cls : Nat
  value : Blob
  payload : Nat
deriving DecidableEq

/-- The three typed tables the rename engine operates on. -/
structure DB where
  sessions : List SessionRow
  settings : List Setting
  configs : List ConfigRow
deriving DecidableEq

/-- Per-representation change counts returned by a rename
(`RenameResult` in `rename.go`). -/
structure RenameResult where
  sessions : Nat
  settings : Nat
  configs : Nat
deriving DecidableEq

/-- The name-bearing column of `sessions` addressed by a rename. -/
inductive SessCol where
  | loadpoint
  | vehicle
deriving DecidableEq

/-- Does the row match `WHERE col = old` (SQL `=` never matches NULL)? -/
def rowMatches (c : SessCol) (old : Str) (r : SessionRow) : Bool :=
  match c with
  | .loadpoint => r.loadpoint = old
  | .vehicle => r.vehicle = some old

/-- Effect of `SET col = v` on one row. -/
def rowSet (c : SessCol) (v : Str) (r : SessionRow) : SessionRow :=
  match c with
  | .loadpoint => { r with loadpoint := v }
  | .vehicle => { r with vehicle := some v }

/-- `renameInSessions`: `UPDATE sessions SET col = new WHERE col = old`;
returns the affected-row count and the updated table. -/
def renameInSessions (c : SessCol) (old new : Str) (rows : List SessionRow) :
    Nat × List SessionRow :=
  (rows.countP (rowMatches c old),
   rows.map fun r => if rowMatches c old r then rowSet c new r else r)

/-- `renameSettingsValue`: `UPDATE settings SET value = new WHERE key LIKE
pat AND value = old`; returns the affected-row count and the updated table. -/
def renameSettingsValue (pat old new : Str) (st : List Setting) :
    Nat × List Setting :=
  (st.countP (fun kv => likeMatch pat kv.key && kv.value = old),
   st.map fun kv =>
     if likeMatch pat kv.key && kv.value = old then { kv with value := new } else kv)

/-- `INSERT OR REPLACE INTO settings (key, value) VALUES (k, v)`:
rows conflicting on the primary key `key` are removed and the new row is
inserted. -/
def settingsReplace (st : List Setting) (k v : Str) : List Setting :=
  st.filter (fun kv => kv.key ≠ k) ++ [⟨k, v⟩]

/-- `DELETE FROM settings WHERE key = k`. -/
def settingsDelete (st : List Setting) (k : Str) : List Setting :=
  st.filter fun kv => kv.key ≠ k

/-- One iteration of the `renameSettingsKeys` migration loop: insert the
re-prefixed key with the unchanged value, then delete the old key. -/
def migrateStep (oldP newP : Str) (acc : List Setting) (kv : Setting) :
    List Setting :=
  settingsDelete (settingsReplace acc (newP ++ trimPre kv.key oldP) kv.value) kv.key

/-- `renameSettingsKeys`: select all rows with `key LIKE oldP || '%'`,
then for each re-insert under the new prefix and delete the old key;
the count is the number of selected rows. -/
def renameSettingsKeys (oldP newP : Str) (st : List Setting) :
    Nat × List Setting :=
  let kvs := st.filter fun kv => likeMatch (oldP ++ ['%']) kv.key
  (kvs.length, kvs.foldl (migrateStep oldP newP) st)

/-- Field lookup in a decoded JSON object (`data["title"]`). -/
def jlookup (fs : List (Str × JVal)) (k : Str) : Option JVal :=
  (fs.find? fun p => p.1 = k).map (·.2)

/-- Field assignment in a decoded JSON object (`data[k] = v`, for a key
already present). -/
def jset (fs : List (Str × JVal)) (k : Str) (v : JVal) : List (Str × JVal) :=
  fs.map fun p => if p.1 = k then (p.1, v) else p

/-- The literal text pattern `title: <name>` used by the YAML-style
fallback. -/
def titlePat (name : Str) : Str := str "title: " ++ name

/-- Does a blob match the rename predicate for `old`: a decoded object
whose `title` field is the string `old`, or raw text containing the
literal pattern `title: old`? Decode failure is never an error — it
selects the text fallback. -/
def cfgHit (old : Str) (b : Blob) : Bool :=
  match b with
  | .raw text => hasSub text (titlePat old)
  | .obj fs =>
    match jlookup fs (str "title") with
    | some (.jstr t) => t = old
    | _ => false

/-- Rewrite of a matching blob: set the decoded `title` field, or replace
the first occurrence of the literal pattern in the raw text. -/
def cfgApply (old new : Str) (b : Blob) : Blob :=
  match b with
  | .raw text => .raw (replace1 text (titlePat old) (titlePat new))
  | .obj fs => .obj (jset fs (str "title") (.jstr new))

/-- `UPDATE configs SET value = b WHERE id = i`. -/
def updateById (cs : List ConfigRow) (i : Nat) (b : Blob) : List ConfigRow :=
  cs.map fun r => if r.id = i then { r with value := b } else r

/-- One iteration of the `renameInConfigsJSON` loop over the snapshot. -/
def cfgStep (old new : Str) (acc : Nat × List ConfigRow)
    (r : ConfigRow) : Nat × List ConfigRow :=
  if cfgHit old r.value then
    (acc.1 + 1, updateById acc.2 r.id (cfgApply old new r.value))
  else acc

/-- `renameInConfigsJSON`: snapshot the rows of the given discriminator
class, then rewrite each matching blob in place (by `id`) and count the
rows modified. -/
def renameInConfigsJSON (cls : Nat) (old new : Str) (cs : List ConfigRow) :
    Nat × List ConfigRow :=
  (cs.filter fun r => r.cls = cls).foldl (cfgStep old new) (0, cs)

/-- The net per-row effect of `renameInConfigsJSON` on one configs row
(under unique row ids): rewrite the blob when the row's class matches and
the blob matches the title predicate. -/
def cfgRowApply (cls : Nat) (old new : Str) (x : ConfigRow) : ConfigRow :=
  if x.cls = cls && cfgHit old x.value
  then { x with value := cfgApply old new x.value } else x

/-- The settings key prefix `vehicle.<name>.` of a vehicle. -/
def vehPre (name : Str) : Str := str "vehicle." ++ name ++ ['.']

/-- `RenameLoadpoint`: rename in `sessions.loadpoint`, in `settings`
values under keys `LIKE 'lp%.title'`, and in class-5 `configs` blobs. -/
def RenameLoadpoint (old new : Str) (db : DB) : RenameResult × DB :=
  let s := renameInSessions .loadpoint old new db.sessions
  let t := renameSettingsValue (str "lp%.title") old new db.settings
  let c := renameInConfigsJSON 5 old new db.configs
  (⟨s.1, t.1, c.1⟩, ⟨s.2, t.2, c.2⟩)

/-- `RenameVehicle`: rename in `sessions.vehicle`, migrate `settings`
keys from prefix `vehicle.old.` to `vehicle.new.`, and rename in class-3
`configs` blobs. -/
def RenameVehicle (old new : Str) (db : DB) : RenameResult × DB :=
  let s := renameInSessions .vehicle old new db.sessions
  let t := renameSettingsKeys (vehPre old) (vehPre new) db.settings
  let c := renameInConfigsJSON 3 old new db.configs
  (⟨s.1, t.1, c.1⟩, ⟨s.2, t.2, c.2⟩)

/-- `countConfigsWithTitle`: count the rows of a class whose blob matches
the title predicate (decoded `title` equal, or fallback pattern present). -/
def countConfigsWithTitle (cls : Nat) (title : Str) (cs : List ConfigRow) : Nat :=
  (cs.filter fun r => r.cls = cls).countP fun r => cfgHit title r.value

/-- `RenameLoadpointDryRun`: the counting mode of `RenameLoadpoint`
(the `newName` argument is accepted and unused, as in the source). -/
def RenameLoadpointDryRun (old _new : Str) (db : DB) : RenameResult :=
  ⟨db.sessions.countP (rowMatches .loadpoint old),
   db.settings.countP (fun kv => likeMatch (str "lp%.title") kv.key && kv.value = old),
   countConfigsWithTitle 5 old db.configs⟩

/-- `RenameVehicleDryRun`: the counting mode of `RenameVehicle`. -/
def RenameVehicleDryRun (old _new : Str) (db : DB) : RenameResult :=
  ⟨db.sessions.countP (rowMatches .vehicle old),
   db.settings.countP (fun kv => likeMatch (str "vehicle." ++ old ++ str ".%") kv.key),
   countConfigsWithTitle 3 old db.configs⟩

/-- A character that is inert for `LIKE` matching: not a wildcard and
not an upper-case ASCII letter (so case-insensitive comparison is exact
comparison). -/
def plainChar (c : Char) : Bool :=
  c ≠ '%' && c ≠ '_' && !(decide ('A' ≤ c) && decide (c ≤ 'Z'))

/-- A string of inert characters. -/
def plainStr (s : Str) : Bool := s.all plainChar

/-- The key migration applied to one settings row whose key carries the
old prefix. -/
def rekeyFn (oldP newP : Str) (kv : Setting) : Setting :=
  ⟨newP ++ kv.key.drop oldP.length, kv.value⟩

/-- Conditions on one class-matching blob under which a rename
`old → new` can be undone by the swapped rename: a decoded object must
not already carry the new name as its title, and for raw text the first
occurrence of the new pattern after rewriting must sit where the old
pattern was, the old pattern must no longer occur after rewriting, and a
text without the old pattern must not contain the new pattern. -/
def cfgUndoable (old new : Str) (b : Blob) : Bool :=
  match b with
  | .obj fs => jlookup fs (str "title") != some (.jstr new)
  | .raw t =>
    if hasSub t (titlePat old) then
      !hasSub (replace1 t (titlePat old) (titlePat new)) (titlePat old)
        && (firstOcc (replace1 t (titlePat old) (titlePat new)) (titlePat new)
              == firstOcc t (titlePat old))
    else !hasSub t (titlePat new)

/-! ## Generic table model for the transfer engine -/

/-- A cell value as scanned from a generic row (tagged variant). -/
inductive Val where
  | null
  | text (s : Str)
  | num (n : Int)
  | real (tag : Nat)
deriving DecidableEq

/-- Column metadata as returned by `PRAGMA table_info` (`ColumnInfo` in
`client.go`). -/
structure ColumnInfo where
  name : Str
  typ : Str
  notNull : Bool
  dflt : Option Str
  primary : Bool
deriving DecidableEq

/-- A generic row: named cell values. -/
abbrev Row := List (Str × Val)

/-- A generic table: its column metadata and its rows. -/
structure GTable where
  cols : List ColumnInfo
  rows : List Row
deriving DecidableEq

/-- A generic database: named tables. -/
abbrev GenDB := List (Str × GTable)

/-- Look a table up by name. -/
def findTable (g : GenDB) (t : Str) : Option GTable :=
  (g.find? fun p => p.1 = t).map (·.2)

/-- `TableExists`. -/
def tableExists (g : GenDB) (t : Str) : Bool :=
  (findTable g t).isSome

/-- `GetTableColumns`: `PRAGMA table_info` yields no rows (an empty
column list, not an error) for a missing table. -/
def getTableColumns (g : GenDB) (t : Str) : List ColumnInfo :=
  match findTable g t with
  | some tb => tb.cols
  | none => []

/-- `GetRowCount`: `SELECT COUNT(*)` fails (`none`) when the table is
missing. -/
def getRowCount (g : GenDB) (t : Str) : Option Nat :=
  (findTable g t).map fun tb => tb.rows.length

/-- `intersectColumns`: the columns of `src` whose name also occurs in
`dst`, in source order. -/
def intersectColumns (src dst : List ColumnInfo) : List ColumnInfo :=
  src.filter fun c => dst.any fun c2 => c2.name = c.name

/-- Cell lookup in a generic row. -/
def rowLookup (r : Row) (n : Str) : Option Val :=
  (r.find? fun p => p.1 = n).map (·.2)

/-- Restriction of a row to the named columns (the `SELECT` column list). -/
def restrictRow (names : List Str) (r : Row) : Row :=
  names.filterMap fun n => (rowLookup r n).map fun v => (n, v)

/-- Names of the primary-key columns of a schema. -/
def pkNames (cols : List ColumnInfo) : List Str :=
  (cols.filter (·.primary)).map (·.name)

/-- Do two rows agree on every primary-key column? -/
def pkConflict (pk : List Str) (r1 r2 : Row) : Bool :=
  pk.all fun n => rowLookup r1 n = rowLookup r2 n

/-- Does the `INSERT OR REPLACE` of this row take the replace branch
(the schema has a primary key and the row supplies every key column)? -/
def insertReplaces (cols : List ColumnInfo) (r : Row) : Bool :=
  !(pkNames cols).isEmpty && (pkNames cols).all fun n => (rowLookup r n).isSome

/-- `INSERT OR REPLACE` of one row: when the inserted row supplies every
primary-key column, rows agreeing with it on the key are replaced;
otherwise (`rowid` is auto-assigned) the row is appended. -/
def insertOrReplaceRow (tb : GTable) (r : Row) : GTable :=
  if insertReplaces tb.cols r then
    { tb with rows := tb.rows.filter (fun r2 => !pkConflict (pkNames tb.cols) r r2) ++ [r] }
  else
    { tb with rows := tb.rows ++ [r] }

/-- Apply a table transformation to the named table of a database. -/
def updateTable (g : GenDB) (t : Str) (f : GTable → GTable) : GenDB :=
  g.map fun p => if p.1 = t then (p.1, f p.2) else p

/-- The insert loop of `copyTableWithTx`: insert the restricted source
rows one by one into the working transaction state; `failIns i` injects a
statement failure at the i-th row (the error result carries the partial
count, and the row that failed is not written). -/
def copyLoop (failIns : Nat → Bool) (t : Str) (rows : List Row)
    (copied : Nat) (tx : GenDB) : GenDB × Except Nat Nat :=
  match rows with
  | [] => (tx, .ok copied)
  | r :: rest =>
    if failIns copied then (tx, .error copied)
    else
      copyLoop failIns t rest (copied + 1)
        (updateTable tx t fun tb => insertOrReplaceRow tb r)

/-- `copyTableWithTx`: reconcile the two column lists by name, fail when
no column is shared, return `0` without reading when the source table is
empty, and otherwise stream the source rows (restricted to the reconciled
columns) into the destination transaction with `INSERT OR REPLACE`.
`src` and `dst0` are the two database handles (schema and source rows are
read outside the transaction), `tx` is the destination transaction state. -/
def copyTableWithTx (failIns : Nat → Bool) (src dst0 : GenDB) (tx : GenDB)
    (t : Str) : GenDB × Except Nat Nat :=
  let srcCols := getTableColumns src t
  let dstCols := getTableColumns dst0 t
  let common := intersectColumns srcCols dstCols
  if common.isEmpty then (tx, .error 0)
  else
    match getRowCount src t with
    | none => (tx, .error 0)
    | some n =>
      if n = 0 then (tx, .ok 0)
      else
        let names := common.map (·.name)
        let srows :=
          (match findTable src t with
            | some tb => tb.rows
            | none => []).map (restrictRow names)
        copyLoop failIns t srows 0 tx

/-! ## Transfer orchestration -/

/-- `TransferMode`: the three named modes; any other integer value is
rejected by `ResolveTables`. -/
inductive TransferMode where
  | config
  | metrics
  | all
  | other (n : Nat)
deriving DecidableEq

/-- A rename directive (`RenameMapping`). -/
structure RenameMapping where
  oldName : Str
  newName : Str
deriving DecidableEq

/-- `TransferOptions` (the progress callback is modelled by recording the
calls in the report). -/
structure TransferOptions where
  mode : TransferMode
  tables : List Str
  dryRun : Bool
  loadpointRenames : List RenameMapping
  vehicleRenames : List RenameMapping
deriving DecidableEq

/-- `GetConfigTables`. -/
def getConfigTables : List Str :=
  [str "settings", str "configs", str "caches"]

/-- `GetMetricsTables`. -/
def getMetricsTables : List Str :=
  [str "meters", str "sessions", str "grid_sessions"]

/-- `GetAllTables`. -/
def getAllTables : List Str := getConfigTables ++ getMetricsTables

/-- `ValidateIdentifier`: the grammar `^[a-zA-Z_][a-zA-Z0-9_]*$`. -/
def isValidIdent (s : Str) : Bool :=
  match s with
  | [] => false
  | c :: rest =>
    (c.isAlpha || c = '_') && rest.all fun d => d.isAlphanum || d = '_'

/-- `ResolveTables`: an explicit list overrides the mode and is validated
against the identifier grammar; otherwise the mode names the table set. -/
def resolveTables (opts : TransferOptions) : Except Unit (List Str) :=
  if !opts.tables.isEmpty then
    if opts.tables.all isValidIdent then .ok opts.tables else .error ()
  else
    match opts.mode with
    | .config => .ok getConfigTables
    | .metrics => .ok getMetricsTables
    | .all => .ok getAllTables
    | .other _ => .error ()

/-- A database state as `Transfer` sees it: the generic view used by the
copy phase and the typed view of the three tables used by the rename
phase. -/
structure Store where
  gen : GenDB
  core : DB
deriving DecidableEq

/-- What a `Transfer` run reports: the dry-run per-table row counts, the
dry-run rename previews, and the real-run progress-callback invocations. -/
structure TransferReport where
  dryTables : List (Str × Nat)
  lpPreviews : List RenameResult
  vehPreviews : List RenameResult
  progress : List (Str × Nat)
deriving DecidableEq

/-- The dry-run table loop: skip tables missing in the destination (with
a warning), report the source row count of the rest; a row-count failure
aborts the preview. -/
def dryTablesLoop (srcg dstg : GenDB) : List Str → Except Unit (List (Str × Nat))
  | [] => .ok []
  | t :: rest =>
    if tableExists dstg t then
      match getRowCount srcg t with
      | none => .error ()
      | some n => (dryTablesLoop srcg dstg rest).map fun l => (t, n) :: l
    else dryTablesLoop srcg dstg rest

/-- The real-run copy loop: skip tables missing in the destination, copy
the rest inside the shared transaction, recording the progress calls; any
copy failure aborts the whole loop. -/
def copyTablesLoop (failIns : Str → Nat → Bool) (srcg dst0 : GenDB)
    (tx : GenDB) (prog : List (Str × Nat)) :
    List Str → Except Unit (GenDB × List (Str × Nat))
  | [] => .ok (tx, prog)
  | t :: rest =>
    if tableExists dst0 t then
      match copyTableWithTx (failIns t) srcg dst0 tx t with
      | (_, .error _) => .error ()
      | (tx2, .ok n) => copyTablesLoop failIns srcg dst0 tx2 (prog ++ [(t, n)]) rest
    else copyTablesLoop failIns srcg dst0 tx prog rest

/-- `Transfer`: resolve the table set; in dry-run mode preview row counts
and rename counts against the source without mutating anything; in real
mode copy all tables inside one destination transaction (rolled back
in full on any failure), commit, and only then apply the rename
directives to the destination. Returns the report (or the error) together
with the final source and destination states. -/
def Transfer (failIns : Str → Nat → Bool) (src dst : Store)
    (opts : TransferOptions) : Except Unit TransferReport × Store × Store :=
  match resolveTables opts with
  | .error _ => (.error (), src, dst)
  | .ok tables =>
    if opts.dryRun then
      match dryTablesLoop src.gen dst.gen tables with
      | .error _ => (.error (), src, dst)
      | .ok dtl =>
        let lps := opts.loadpointRenames.map fun p =>
          RenameLoadpointDryRun p.oldName p.newName src.core
        let vehs := opts.vehicleRenames.map fun p =>
          RenameVehicleDryRun p.oldName p.newName src.core
        (.ok ⟨dtl, lps, vehs, []⟩, src, dst)
    else
      match copyTablesLoop failIns src.gen dst.gen dst.gen [] tables with
      | .error _ => (.error (), src, dst)
      | .ok (tx, prog) =>
        let core1 := opts.loadpointRenames.foldl
          (fun c p => (RenameLoadpoint p.oldName p.newName c).2) dst.core
        let core2 := opts.vehicleRenames.foldl
          (fun c p => (RenameVehicle p.oldName p.newName c).2) core1
        (.ok ⟨[], [], [], prog⟩, src, ⟨tx, core2⟩)

/-! ## Lemmas about LIKE matching -/

theorem lowerChar_of_plain {c : Char} (h : plainChar c = true) : lowerChar c = c := by
  unfold plainChar at h
  unfold lowerChar
  simp only [Bool.and_eq_true, Bool.not_eq_true', Bool.and_eq_false_iff,
    decide_eq_false_iff_not] at h
  rcases h with ⟨_, h2⟩
  rw [if_neg]
  rcases h2 with h2 | h2
  · exact fun hc => h2 hc.1
  · exact fun hc => h2 hc.2

theorem likeMatch_pct_any (s : Str) : likeMatch ['%'] s = true := by
  induction s with
  | nil => simp [likeMatch]
  | cons c t ih => simp [likeMatch, ih]

theorem likeMatch_plain {p : Str} (s : Str) (hp : plainStr p = true)
    (hs : plainStr s = true) : likeMatch (p ++ ['%']) s = p.isPrefixOf s := by
  induction p generalizing s with
  | nil =>
    simpa [List.isPrefixOf] using likeMatch_pct_any s
  | cons a p' ih =>
    have ha : plainChar a = true := by
      unfold plainStr at hp
      simp only [List.all_cons, Bool.and_eq_true] at hp
      exact hp.1
    have hp' : plainStr p' = true := by
      unfold plainStr at hp
      simp only [List.all_cons, Bool.and_eq_true] at hp
      exact hp.2
    have hpct : a ≠ '%' := by
      unfold plainChar at ha
      simp only [Bool.and_eq_true, decide_eq_true_eq] at ha
      exact ha.1.1
    have hus : a ≠ '_' := by
      unfold plainChar at ha
      simp only [Bool.and_eq_true, decide_eq_true_eq] at ha
      exact ha.1.2
    cases s with
    | nil =>
      rw [List.cons_append, likeMatch, if_neg hpct]
      simp [List.isPrefixOf]
    | cons c ss =>
      have hc : plainChar c = true := by
        unfold plainStr at hs
        simp only [List.all_cons, Bool.and_eq_true] at hs
        exact hs.1
      have hs' : plainStr ss = true := by
        unfold plainStr at hs
        simp only [List.all_cons, Bool.and_eq_true] at hs
        exact hs.2
      rw [List.cons_append, likeMatch, if_neg hpct]
      simp only [lowerChar_of_plain ha, lowerChar_of_plain hc]
      rw [ih ss hp' hs']
      simp [List.isPrefixOf, decide_eq_true_eq, hus, BEq.beq]

/-! ## Lemmas about the settings key migration -/

theorem isPre_append_drop {p s : Str} (h : p.isPrefixOf s = true) :
    p ++ s.drop p.length = s :=
  List.prefix_iff_eq_append.mp (List.isPrefixOf_iff_prefix.mp h)

theorem key_eq_of_drop_eq {p a b : Str} (ha : p.isPrefixOf a = true)
    (hb : p.isPrefixOf b = true) (h : a.drop p.length = b.drop p.length) :
    a = b := by
  rw [← isPre_append_drop ha, ← isPre_append_drop hb, h]

theorem isPre_of_append (p t : Str) : p.isPrefixOf (p ++ t) = true :=
  List.isPrefixOf_iff_prefix.mpr (List.prefix_append p t)

theorem filter_key_singleton {st : List Setting} {kv : Setting}
    (hnd : (st.map Setting.key).Nodup) (hm : kv ∈ st) :
    st.filter (fun x => x.key = kv.key) = [kv] := by
  induction st with
  | nil => cases hm
  | cons a t ih =>
    rw [List.map_cons, List.nodup_cons] at hnd
    rcases List.mem_cons.mp hm with h | h
    · subst h
      rw [List.filter_cons_of_pos (by simp)]
      have ht : t.filter (fun x => x.key = kv.key) = [] := by
        rw [List.filter_eq_nil_iff]
        intro x hx
        simp only [decide_eq_true_eq]
        intro hk
        exact hnd.1 (hk ▸ List.mem_map_of_mem Setting.key hx)
      rw [ht]
    · have hne : ¬(a.key = kv.key) := by
        intro he
        exact hnd.1 (he ▸ List.mem_map_of_mem Setting.key h)
      rw [List.filter_cons_of_neg (by simpa using hne)]
      exact ih hnd.2 h

theorem migrate_fold (oldP newP : Str) (pending : List Setting) :
    ∀ (acc : List Setting),
      (∀ kv ∈ pending, oldP.isPrefixOf kv.key = true) →
      ((pending.map Setting.key).Nodup) →
      (∀ kv ∈ pending, acc.filter (fun x => x.key = kv.key) = [kv]) →
      (∀ kv ∈ pending, ∀ x ∈ acc, x.key ≠ newP ++ kv.key.drop oldP.length) →
      pending.foldl (migrateStep oldP newP) acc
        = acc.filter (fun x => !(pending.any (fun kv => kv.key = x.key)))
          ++ pending.map (rekeyFn oldP newP) := by
  induction pending with
  | nil =>
    intro acc _ _ _ _
    simp
  | cons kv pend ih =>
    intro acc hpre hnd hin hnew
    have hkv_pre : oldP.isPrefixOf kv.key = true := hpre kv (List.mem_cons_self _ _)
    have hkv_acc : kv ∈ acc := by
      have := hin kv (List.mem_cons_self _ _)
      have : kv ∈ acc.filter (fun x => x.key = kv.key) := by
        rw [this]; exact List.mem_singleton_self kv
      exact List.mem_of_mem_filter this
    rw [List.map_cons, List.nodup_cons] at hnd
    -- the migrated key of the head
    have hstep : migrateStep oldP newP acc kv
        = acc.filter (fun x => x.key ≠ kv.key)
          ++ [⟨newP ++ kv.key.drop oldP.length, kv.value⟩] := by
      unfold migrateStep settingsReplace settingsDelete trimPre
      rw [if_pos hkv_pre]
      have hkeep : acc.filter (fun x => x.key ≠ newP ++ kv.key.drop oldP.length) = acc := by
        rw [List.filter_eq_self]
        intro x hx
        simpa using hnew kv (List.mem_cons_self _ _) x hx
      rw [hkeep, List.filter_append]
      have hnk : ¬((⟨newP ++ kv.key.drop oldP.length, kv.value⟩ : Setting).key = kv.key) := by
        intro he
        exact hnew kv (List.mem_cons_self _ _) kv hkv_acc he.symm
      rw [List.filter_cons_of_pos (by simpa using hnk), List.filter_nil]
    -- facts used to transport the invariants
    have hpend_ne_nk : ∀ kv2 ∈ pend, ∀ x ∈ acc,
        x.key ≠ newP ++ kv2.key.drop oldP.length := fun kv2 h2 =>
      hnew kv2 (List.mem_cons_of_mem _ h2)
    have hpend_in_acc : ∀ kv2 ∈ pend, kv2 ∈ acc := by
      intro kv2 h2
      have := hin kv2 (List.mem_cons_of_mem _ h2)
      have : kv2 ∈ acc.filter (fun x => x.key = kv2.key) := by
        rw [this]; exact List.mem_singleton_self kv2
      exact List.mem_of_mem_filter this
    have hkey_ne : ∀ kv2 ∈ pend, ¬(kv2.key = kv.key) := by
      intro kv2 h2 he
      exact hnd.1 (he ▸ List.mem_map_of_mem Setting.key h2)
    have hnk_ne_pend : ∀ kv2 ∈ pend,
        ¬(kv2.key = newP ++ kv.key.drop oldP.length) := by
      intro kv2 h2 he
      exact hnew kv (List.mem_cons_self _ _) kv2 (hpend_in_acc kv2 h2) he
    -- the new accumulator
    rw [List.foldl_cons, hstep]
    rw [ih _
      (fun kv2 h2 => hpre kv2 (List.mem_cons_of_mem _ h2))
      hnd.2
      (by
        intro kv2 h2
        rw [List.filter_append, List.filter_filter]
        have h1 : acc.filter (fun x => decide (x.key = kv2.key) && decide (x.key ≠ kv.key))
            = acc.filter (fun x => x.key = kv2.key) := by
          apply List.filter_congr
          intro x hx
          by_cases hxk : x.key = kv2.key
          · simp [hxk, hkey_ne kv2 h2]
          · simp [hxk]
        rw [h1, hin kv2 (List.mem_cons_of_mem _ h2)]
        rw [List.filter_cons_of_neg
            (by simpa using fun he => hnk_ne_pend kv2 h2 (Eq.symm he)),
          List.filter_nil, List.append_nil])
      (by
        intro kv2 h2 x hx
        rcases List.mem_append.mp hx with hx | hx
        · exact hpend_ne_nk kv2 h2 x (List.mem_of_mem_filter hx)
        · rw [List.mem_singleton] at hx
          subst hx
          simp only []
          intro he
          have hd : kv.key.drop oldP.length = kv2.key.drop oldP.length :=
            List.append_cancel_left he
          exact hkey_ne kv2 h2 (key_eq_of_drop_eq
            (hpre kv2 (List.mem_cons_of_mem _ h2)) hkv_pre hd.symm))]
    -- reassemble
    rw [List.filter_append, List.filter_filter]
    have h2 : acc.filter
          (fun x => !pend.any (fun kv2 => kv2.key = x.key) && decide (x.key ≠ kv.key))
        = acc.filter (fun x => !(kv :: pend).any (fun kv2 => kv2.key = x.key)) := by
      apply List.filter_congr
      intro x hx
      simp only [List.any_cons, Bool.not_or, Bool.and_comm]
      congr 1
      simp [eq_comm]
    rw [h2]
    have h3 : List.filter
          (fun x => !pend.any (fun kv2 => kv2.key = x.key))
          [(⟨newP ++ kv.key.drop oldP.length, kv.value⟩ : Setting)]
        = [⟨newP ++ kv.key.drop oldP.length, kv.value⟩] := by
      rw [List.filter_cons_of_pos, List.filter_nil]
      simp only [Bool.not_eq_true']
      rw [List.any_eq_false]
      intro kv2 h2'
      simpa using hnk_ne_pend kv2 h2'
    rw [h3, List.map_cons, List.append_assoc]
    rfl

theorem renameSettingsKeys_fst {oldP newP : Str} {st : List Setting}
    (hsel : ∀ kv ∈ st, likeMatch (oldP ++ ['%']) kv.key = oldP.isPrefixOf kv.key) :
    (renameSettingsKeys oldP newP st).1
      = (st.filter (fun kv => oldP.isPrefixOf kv.key)).length := by
  unfold renameSettingsKeys
  simp only []
  rw [List.filter_congr hsel]

theorem renameSettingsKeys_snd {oldP newP : Str} {st : List Setting}
    (hsel : ∀ kv ∈ st, likeMatch (oldP ++ ['%']) kv.key = oldP.isPrefixOf kv.key)
    (hnd : (st.map Setting.key).Nodup)
    (hnew : ∀ kv ∈ st, newP.isPrefixOf kv.key = false) :
    (renameSettingsKeys oldP newP st).2
      = st.filter (fun kv => !oldP.isPrefixOf kv.key)
        ++ (st.filter (fun kv => oldP.isPrefixOf kv.key)).map (rekeyFn oldP newP) := by
  unfold renameSettingsKeys
  simp only []
  rw [List.filter_congr hsel]
  have hnd2 : ((st.filter (fun kv => oldP.isPrefixOf kv.key)).map Setting.key).Nodup :=
    List.Nodup.sublist (List.Sublist.map Setting.key (List.filter_sublist st)) hnd
  rw [migrate_fold oldP newP _ st
    (fun kv hm => (List.mem_filter.mp hm).2)
    hnd2
    (fun kv hm => filter_key_singleton hnd (List.mem_of_mem_filter hm))
    (by
      intro kv _ x hx he
      have hp := isPre_of_append newP (kv.key.drop oldP.length)
      rw [← he] at hp
      rw [hnew x hx] at hp
      cases hp)]
  have hpt : ∀ x ∈ st,
      ((st.filter (fun kv => oldP.isPrefixOf kv.key)).any (fun kv => kv.key = x.key))
        = oldP.isPrefixOf x.key := by
    intro x hx
    by_cases hp : oldP.isPrefixOf x.key = true
    · rw [hp, List.any_eq_true]
      exact ⟨x, List.mem_filter.mpr ⟨hx, hp⟩, by simp⟩
    · rw [Bool.not_eq_true] at hp
      rw [hp, List.any_eq_false]
      intro kv hkv
      have h1 := (List.mem_filter.mp hkv).2
      simp only [decide_eq_true_eq]
      intro he
      rw [he, hp] at h1
      cases h1
  have hflt : st.filter
        (fun x => !(st.filter (fun kv => oldP.isPrefixOf kv.key)).any (fun kv => kv.key = x.key))
      = st.filter (fun x => !oldP.isPrefixOf x.key) :=
    List.filter_congr (fun x hx => by rw [hpt x hx])
  rw [hflt]

/-! ## Lemmas about the configs blob rewrite -/

theorem cfgFold_fst (old new : Str) (snap : List ConfigRow) :
    ∀ (k : Nat) (acc : List ConfigRow),
      (snap.foldl (cfgStep old new) (k, acc)).1
        = k + snap.countP (fun r => cfgHit old r.value) := by
  induction snap with
  | nil => intro k acc; simp
  | cons r rest ih =>
    intro k acc
    rw [List.foldl_cons]
    by_cases h : cfgHit old r.value = true
    · rw [show cfgStep old new (k, acc) r
          = (k + 1, updateById acc r.id (cfgApply old new r.value)) by
        unfold cfgStep; rw [if_pos h]]
      rw [ih, List.countP_cons_of_pos _ _ (by simpa using h)]
      omega
    · rw [show cfgStep old new (k, acc) r = (k, acc) by
        unfold cfgStep; rw [if_neg h]]
      rw [ih, List.countP_cons_of_neg _ _ (by simpa using h)]

theorem cfgFold_length (old new : Str) (snap : List ConfigRow) :
    ∀ (k : Nat) (acc : List ConfigRow),
      ((snap.foldl (cfgStep old new) (k, acc)).2).length = acc.length := by
  induction snap with
  | nil => intro k acc; rfl
  | cons r rest ih =>
    intro k acc
    rw [List.foldl_cons]
    by_cases h : cfgHit old r.value = true
    · rw [show cfgStep old new (k, acc) r
          = (k + 1, updateById acc r.id (cfgApply old new r.value)) by
        unfold cfgStep; rw [if_pos h]]
      rw [ih]
      unfold updateById
      rw [List.length_map]
    · rw [show cfgStep old new (k, acc) r = (k, acc) by
        unfold cfgStep; rw [if_neg h]]
      rw [ih]

theorem renameInConfigsJSON_fst (cls : Nat) (old new : Str) (cs : List ConfigRow) :
    (renameInConfigsJSON cls old new cs).1 = countConfigsWithTitle cls old cs := by
  unfold renameInConfigsJSON countConfigsWithTitle
  rw [cfgFold_fst]
  simp

theorem renameInConfigsJSON_length (cls : Nat) (old new : Str) (cs : List ConfigRow) :
    ((renameInConfigsJSON cls old new cs).2).length = cs.length := by
  unfold renameInConfigsJSON
  rw [cfgFold_length]

theorem cfgFold_snd (old new : Str) (snap : List ConfigRow) :
    ∀ (k : Nat) (acc : List ConfigRow), ((snap.map ConfigRow.id).Nodup) →
      (snap.foldl (cfgStep old new) (k, acc)).2
        = acc.map (fun x =>
            match snap.find? (fun r => r.id = x.id) with
            | some r =>
              if cfgHit old r.value then { x with value := cfgApply old new r.value } else x
            | none => x) := by
  induction snap with
  | nil =>
    intro k acc _
    simp [List.find?]
  | cons r rest ih =>
    intro k acc hnd
    rw [List.map_cons, List.nodup_cons] at hnd
    have hrest_ne : ∀ x, x ∈ acc → ∀ r2 ∈ rest, r2.id = r.id → False := by
      intro x _ r2 h2 he
      exact hnd.1 (he ▸ List.mem_map_of_mem ConfigRow.id h2)
    rw [List.foldl_cons]
    by_cases h : cfgHit old r.value = true
    · rw [show cfgStep old new (k, acc) r
          = (k + 1, updateById acc r.id (cfgApply old new r.value)) by
        unfold cfgStep; rw [if_pos h]]
      rw [ih (k + 1) _ hnd.2]
      unfold updateById
      rw [List.map_map]
      apply List.map_congr_left
      intro x hx
      by_cases hid : x.id = r.id
      · simp only [Function.comp, if_pos (by simpa using hid)]
        have hf : rest.find? (fun r2 => r2.id = x.id) = none := by
          rw [List.find?_eq_none]
          intro r2 h2
          simp only [decide_eq_true_eq]
          intro he
          exact hrest_ne x hx r2 h2 (by rw [he, hid])
        have hf2 : List.find? (fun r2 => r2.id = x.id) (r :: rest) = some r := by
          rw [List.find?_cons_of_pos _ (by simpa using hid.symm)]
        simp only [hf, hf2, if_pos h]
      · simp only [Function.comp, if_neg (by simpa using hid)]
        have hf2 : List.find? (fun r2 => r2.id = x.id) (r :: rest)
            = List.find? (fun r2 => r2.id = x.id) rest := by
          rw [List.find?_cons_of_neg _ (by simpa using fun he => hid (Eq.symm he))]
        rw [hf2]
    · rw [show cfgStep old new (k, acc) r = (k, acc) by
        unfold cfgStep; rw [if_neg h]]
      rw [ih k acc hnd.2]
      apply List.map_congr_left
      intro x hx
      by_cases hid : x.id = r.id
      · have hf : rest.find? (fun r2 => r2.id = x.id) = none := by
          rw [List.find?_eq_none]
          intro r2 h2
          simp only [decide_eq_true_eq]
          intro he
          exact hrest_ne x hx r2 h2 (by rw [he, hid])
        have hf2 : List.find? (fun r2 => r2.id = x.id) (r :: rest) = some r := by
          rw [List.find?_cons_of_pos _ (by simpa using hid.symm)]
        simp only [hf, hf2, if_neg h]
      · have hf2 : List.find? (fun r2 => r2.id = x.id) (r :: rest)
            = List.find? (fun r2 => r2.id = x.id) rest := by
          rw [List.find?_cons_of_neg _ (by simpa using fun he => hid (Eq.symm he))]
        rw [hf2]

theorem find?_filter_id {cs : List ConfigRow} {x : ConfigRow} (p : ConfigRow → Bool)
    (hnd : (cs.map ConfigRow.id).Nodup) (hx : x ∈ cs) :
    (cs.filter p).find? (fun r => r.id = x.id) = if p x then some x else none := by
  induction cs with
  | nil => cases hx
  | cons a t ih =>
    rw [List.map_cons, List.nodup_cons] at hnd
    rcases List.mem_cons.mp hx with h | h
    · subst h
      by_cases hp : p x = true
      · rw [List.filter_cons_of_pos hp, List.find?_cons_of_pos _ (by simp), if_pos hp]
      · rw [List.filter_cons_of_neg (by simpa using hp), if_neg hp]
        rw [List.find?_eq_none]
        intro r2 h2
        simp only [decide_eq_true_eq]
        intro he
        exact hnd.1 (he ▸ List.mem_map_of_mem ConfigRow.id (List.mem_of_mem_filter h2))
    · have hne : ¬(a.id = x.id) := by
        intro he
        exact hnd.1 (he ▸ List.mem_map_of_mem ConfigRow.id h)
      by_cases hp : p a = true
      · rw [List.filter_cons_of_pos hp, List.find?_cons_of_neg _ (by simpa using hne)]
        exact ih hnd.2 h
      · rw [List.filter_cons_of_neg (by simpa using hp)]
        exact ih hnd.2 h

theorem renameInConfigsJSON_snd (cls : Nat) (old new : Str) {cs : List ConfigRow}
    (hnd : (cs.map ConfigRow.id).Nodup) :
    (renameInConfigsJSON cls old new cs).2 = cs.map (cfgRowApply cls old new) := by
  unfold cfgRowApply
  unfold renameInConfigsJSON
  rw [cfgFold_snd old new _ 0 cs
    (List.Nodup.sublist (List.Sublist.map ConfigRow.id (List.filter_sublist cs)) hnd)]
  apply List.map_congr_left
  intro x hx
  rw [find?_filter_id (fun r => r.cls = cls) hnd hx]
  by_cases hc : x.cls = cls
  · rw [if_pos (by simpa using hc)]
    by_cases h : cfgHit old x.value = true
    · simp [hc, h]
    · simp [hc, h]
  · rw [if_neg (by simpa using hc)]
    simp [hc]

/-! ## Dry-run parity -/

theorem vehPre_pct (old : Str) :
    vehPre old ++ ['%'] = str "vehicle." ++ old ++ str ".%" := by
  unfold vehPre
  rw [show str ".%" = ['.'] ++ ['%'] from rfl]
  simp [List.append_assoc]

theorem renameLoadpoint_counts (old new : Str) (db : DB) :
    (RenameLoadpoint old new db).1 = RenameLoadpointDryRun old new db := by
  unfold RenameLoadpoint RenameLoadpointDryRun renameInSessions renameSettingsValue
  simp only []
  rw [renameInConfigsJSON_fst]

theorem renameVehicle_counts (old new : Str) (db : DB) :
    (RenameVehicle old new db).1 = RenameVehicleDryRun old new db := by
  unfold RenameVehicle RenameVehicleDryRun renameInSessions renameSettingsKeys
  simp only []
  rw [renameInConfigsJSON_fst, ← vehPre_pct old]
  simp [List.countP_eq_length_filter]

/-- C1: for every database state and every (oldName, newName) pair, the
counting mode returns exactly the counts the mutating mode reports on the
same unchanged state, component-wise over sessions, settings and configs,
for both the loadpoint and the vehicle engine. -/
theorem C1_dry_run_parity (old new : Str) (db : DB) :
    RenameLoadpointDryRun old new db = (RenameLoadpoint old new db).1
      ∧ RenameVehicleDryRun old new db = (RenameVehicle old new db).1 :=
  ⟨(renameLoadpoint_counts old new db).symm, (renameVehicle_counts old new db).symm⟩

/-! ## Row-count invariants of a rename -/

theorem plainStr_append {a b : Str} (ha : plainStr a = true)
    (hb : plainStr b = true) : plainStr (a ++ b) = true := by
  unfold plainStr at *
  rw [List.all_append, ha, hb]
  rfl

theorem plainStr_vehPre {n : Str} (h : plainStr n = true) :
    plainStr (vehPre n) = true :=
  plainStr_append (plainStr_append (by decide) h) (by decide)

theorem not_isPre_append {p q : Str} (d : Str)
    (hpq : p.isPrefixOf q = false) (hqp : q.isPrefixOf p = false) :
    p.isPrefixOf (q ++ d) = false := by
  rw [Bool.eq_false_iff]
  intro h
  have hp : p <+: q ++ d := List.isPrefixOf_iff_prefix.mp h
  have hq : q <+: q ++ d := List.prefix_append q d
  by_cases hl : p.length ≤ q.length
  · have : p <+: q := List.prefix_of_prefix_length_le hp hq hl
    rw [List.isPrefixOf_iff_prefix.mpr this] at hpq
    cases hpq
  · have : q <+: p := List.prefix_of_prefix_length_le hq hp (by omega)
    rw [List.isPrefixOf_iff_prefix.mpr this] at hqp
    cases hqp

theorem settings_length_perm {oldP newP : Str} {st : List Setting}
    (hsel : ∀ kv ∈ st, likeMatch (oldP ++ ['%']) kv.key = oldP.isPrefixOf kv.key)
    (hnd : (st.map Setting.key).Nodup)
    (hnew : ∀ kv ∈ st, newP.isPrefixOf kv.key = false) :
    ((renameSettingsKeys oldP newP st).2).length = st.length := by
  rw [renameSettingsKeys_snd hsel hnd hnew]
  rw [List.length_append, List.length_map]
  have hperm := List.filter_append_perm (fun kv => oldP.isPrefixOf kv.key) st
  have := hperm.length_eq
  rw [List.length_append] at this
  omega

/-- C2 counterexample: renaming vehicle `A` to `A` (oldName = newName) on
a store holding the single key `vehicle.A.x` deletes that settings row —
the rename changes the settings row count from 1 to 0, refuting the claim
as stated. -/
theorem C2_rename_row_count_counterexample :
    ((RenameVehicle (str "A") (str "A")
        ⟨[], [⟨str "vehicle.A.x", str "1"⟩], []⟩).2).settings.length ≠
      ([⟨str "vehicle.A.x", str "1"⟩] : List Setting).length := by decide

/-- C2 (amended): a successful rename leaves the number of rows in every
table unchanged, provided — for the vehicle key migration — that the
old name is plain (no `LIKE` wildcards, no upper-case ASCII), the
settings keys are plain and pairwise distinct, and no key already
carries the new prefix (this excludes in particular oldName = newName,
where the migration deletes rows). The loadpoint engine and the
sessions/configs tables need no side conditions at all. -/
theorem C2_rename_preserves_row_counts (old new : Str) (db : DB)
    (hold : plainStr old = true)
    (hkeys : ∀ kv ∈ db.settings, plainStr kv.key = true)
    (hnd : (db.settings.map Setting.key).Nodup)
    (hfresh : ∀ kv ∈ db.settings, (vehPre new).isPrefixOf kv.key = false) :
    ((RenameLoadpoint old new db).2.sessions.length = db.sessions.length
      ∧ (RenameLoadpoint old new db).2.settings.length = db.settings.length
      ∧ (RenameLoadpoint old new db).2.configs.length = db.configs.length)
    ∧ ((RenameVehicle old new db).2.sessions.length = db.sessions.length
      ∧ (RenameVehicle old new db).2.settings.length = db.settings.length
      ∧ (RenameVehicle old new db).2.configs.length = db.configs.length) := by
  constructor
  · refine ⟨?_, ?_, ?_⟩
    · unfold RenameLoadpoint renameInSessions
      simp
    · unfold RenameLoadpoint renameSettingsValue
      simp
    · unfold RenameLoadpoint
      simp only []
      rw [renameInConfigsJSON_length]
  · refine ⟨?_, ?_, ?_⟩
    · unfold RenameVehicle renameInSessions
      simp
    · unfold RenameVehicle
      simp only []
      exact settings_length_perm
        (fun kv hm => likeMatch_plain kv.key (plainStr_vehPre hold) (hkeys kv hm))
        hnd hfresh
    · unfold RenameVehicle
      simp only []
      rw [renameInConfigsJSON_length]

/-- C2 witness. -/
theorem C2_rename_preserves_row_counts_witness :
    ((RenameVehicle (str "a") (str "b")
        ⟨[⟨str "g", some (str "a"), 0⟩],
         [⟨str "vehicle.a.x", str "1"⟩, ⟨str "other", str "y"⟩],
         [⟨1, 3, .raw (str "title: a"), 0⟩]⟩).2).settings.length = 2 := by
  have h := (C2_rename_preserves_row_counts (str "a") (str "b")
    ⟨[⟨str "g", some (str "a"), 0⟩],
     [⟨str "vehicle.a.x", str "1"⟩, ⟨str "other", str "y"⟩],
     [⟨1, 3, .raw (str "title: a"), 0⟩]⟩
    (by decide) (by decide) (by decide) (by decide)).2.2.1
  simpa using h

/-! ## Completeness of the vehicle settings-key migration -/

/-- C5 counterexample: renaming mobile asset `A` to `A` (oldName =
newName) on a store holding `vehicle.A.minSoc = 25` leaves a store that
does not contain the migrated key bound to its value at all (the row was
deleted), refuting the claim as stated for every pair. -/
theorem C5_migration_counterexample :
    (⟨str "vehicle.A.minSoc", str "25"⟩ : Setting) ∉
      ((RenameVehicle (str "A") (str "A")
          ⟨[], [⟨str "vehicle.A.minSoc", str "25"⟩], []⟩).2).settings := by decide

/-- C5 (amended): a successful mobile-asset rename migrates every
settings key carrying the old per-asset prefix — afterwards the store
contains the new-prefix key bound to the unchanged original value, no key
with the old prefix remains, and the reported settings count equals the
number of keys migrated — provided the names are plain (no `LIKE`
wildcards, no upper-case ASCII), the settings keys are plain and pairwise
distinct, no key already carries the new prefix, and neither prefix is a
prefix of the other (in particular oldName ≠ newName). -/
theorem C5_vehicle_key_migration (old new : Str) (db : DB)
    (hold : plainStr old = true)
    (hkeys : ∀ kv ∈ db.settings, plainStr kv.key = true)
    (hnd : (db.settings.map Setting.key).Nodup)
    (hfresh : ∀ kv ∈ db.settings, (vehPre new).isPrefixOf kv.key = false)
    (hon : (vehPre old).isPrefixOf (vehPre new) = false)
    (hno : (vehPre new).isPrefixOf (vehPre old) = false) :
    (RenameVehicle old new db).1.settings
        = (db.settings.filter fun kv => (vehPre old).isPrefixOf kv.key).length
      ∧ (∀ kv ∈ db.settings, (vehPre old).isPrefixOf kv.key = true →
          rekeyFn (vehPre old) (vehPre new) kv ∈ (RenameVehicle old new db).2.settings)
      ∧ (∀ kv ∈ (RenameVehicle old new db).2.settings,
          (vehPre old).isPrefixOf kv.key = false) := by
  have hsel : ∀ kv ∈ db.settings,
      likeMatch (vehPre old ++ ['%']) kv.key = (vehPre old).isPrefixOf kv.key :=
    fun kv hm => likeMatch_plain kv.key (plainStr_vehPre hold) (hkeys kv hm)
  have hsnd := renameSettingsKeys_snd hsel hnd hfresh
  refine ⟨?_, ?_, ?_⟩
  · unfold RenameVehicle
    simp only []
    rw [renameSettingsKeys_fst hsel]
  · intro kv hm hp
    unfold RenameVehicle
    simp only []
    rw [hsnd]
    exact List.mem_append_right _
      (List.mem_map_of_mem _ (List.mem_filter.mpr ⟨hm, hp⟩))
  · intro kv hm
    unfold RenameVehicle at hm
    simp only [] at hm
    rw [hsnd] at hm
    rcases List.mem_append.mp hm with h | h
    · have := (List.mem_filter.mp h).2
      simpa using this
    · rcases List.mem_map.mp h with ⟨kv0, _, he⟩
      rw [← he]
      unfold rekeyFn
      exact not_isPre_append _ hon hno

/-- C5 witness: the spec's own scenario (with the plain-cased names the
side conditions require): renaming `oldcar` to `newcar` migrates
`vehicle.oldcar.minsoc = 25` to `vehicle.newcar.minsoc = 25`. -/
theorem C5_vehicle_key_migration_witness :
    (⟨str "vehicle.newcar.minsoc", str "25"⟩ : Setting) ∈
      ((RenameVehicle (str "oldcar") (str "newcar")
          ⟨[], [⟨str "vehicle.oldcar.minsoc", str "25"⟩], []⟩).2).settings := by
  have h := (C5_vehicle_key_migration (str "oldcar") (str "newcar")
    ⟨[], [⟨str "vehicle.oldcar.minsoc", str "25"⟩], []⟩
    (by decide) (by decide) (by decide) (by decide) (by decide) (by decide)).2.1
    ⟨str "vehicle.oldcar.minsoc", str "25"⟩ (by decide) (by decide)
  simpa using h

/-! ## First-occurrence structure of the text fallback -/

theorem hasSub_eq_isSome (s pat : Str) : hasSub s pat = (firstOcc s pat).isSome := by
  induction s with
  | nil =>
    unfold hasSub firstOcc
    cases hpe : pat.isEmpty <;> simp [hpe]
  | cons c t ih =>
    unfold hasSub firstOcc
    cases hp : pat.isPrefixOf (c :: t) <;> simp [hp, ih]

theorem replace1_eq_firstOcc (s pat rep : Str) :
    replace1 s pat rep
      = match firstOcc s pat with
        | none => s
        | some i => s.take i ++ rep ++ s.drop (i + pat.length) := by
  induction s with
  | nil =>
    unfold replace1 firstOcc
    by_cases h : pat.isEmpty = true
    · rw [if_pos h, if_pos h]
      have hpe : pat = [] := by simpa using h
      simp [hpe]
    · rw [if_neg h, if_neg h]
  | cons c t ih =>
    unfold replace1 firstOcc
    by_cases h : pat.isPrefixOf (c :: t) = true
    · rw [if_pos h, if_pos h]
      simp
    · rw [if_neg h, if_neg h, ih]
      cases hf : firstOcc t pat with
      | none => simp
      | some j =>
        have harith : j + 1 + pat.length = (j + pat.length) + 1 := by omega
        simp only [Option.map_some', harith, List.take_succ_cons, List.drop_succ_cons]
        simp

theorem firstOcc_decomp {s pat : Str} {i : Nat} (h : firstOcc s pat = some i) :
    s.take i ++ pat ++ s.drop (i + pat.length) = s := by
  induction s generalizing i with
  | nil =>
    unfold firstOcc at h
    by_cases hp : pat.isEmpty = true
    · rw [if_pos hp] at h
      have h0 : i = 0 := by
        have := Option.some.inj h
        omega
      have hpe : pat = [] := by simpa using hp
      subst h0
      simp [hpe]
    · rw [if_neg hp] at h
      cases h
  | cons c t ih =>
    unfold firstOcc at h
    by_cases hp : pat.isPrefixOf (c :: t) = true
    · rw [if_pos hp] at h
      have h0 : i = 0 := by
        have := Option.some.inj h
        omega
      subst h0
      simpa using isPre_append_drop hp
    · rw [if_neg hp] at h
      cases hf : firstOcc t pat with
      | none => rw [hf] at h; cases h
      | some j =>
        rw [hf] at h
        have hij : i = j + 1 := (Option.some.inj h).symm
        subst hij
        rw [show j + 1 + pat.length = (j + pat.length) + 1 by omega]
        rw [List.take_succ_cons, List.drop_succ_cons, List.cons_append, List.cons_append]
        exact congrArg (List.cons c) (ih hf)

theorem firstOcc_min {s pat : Str} {i : Nat} (h : firstOcc s pat = some i) :
    ∀ j < i, pat.isPrefixOf (s.drop j) = false := by
  induction s generalizing i with
  | nil =>
    unfold firstOcc at h
    by_cases hp : pat.isEmpty = true
    · rw [if_pos hp] at h
      have h0 : i = 0 := by
        have := Option.some.inj h
        omega
      subst h0
      intro j hj
      exact absurd hj (by omega)
    · rw [if_neg hp] at h
      cases h
  | cons c t ih =>
    unfold firstOcc at h
    by_cases hp : pat.isPrefixOf (c :: t) = true
    · rw [if_pos hp] at h
      have h0 : i = 0 := by
        have := Option.some.inj h
        omega
      subst h0
      intro j hj
      exact absurd hj (by omega)
    · rw [if_neg hp] at h
      cases hf : firstOcc t pat with
      | none => rw [hf] at h; cases h
      | some j =>
        rw [hf] at h
        have hij : i = j + 1 := (Option.some.inj h).symm
        subst hij
        intro k hk
        cases k with
        | zero => simpa using Bool.eq_false_iff.mpr (by simpa using hp)
        | succ m =>
          rw [List.drop_succ_cons]
          exact ih hf m (by omega)

theorem firstOcc_bound {s pat : Str} {i : Nat} (h : firstOcc s pat = some i) :
    i + pat.length ≤ s.length := by
  induction s generalizing i with
  | nil =>
    unfold firstOcc at h
    by_cases hp : pat.isEmpty = true
    · rw [if_pos hp] at h
      have h0 : i = 0 := by
        have := Option.some.inj h
        omega
      have hpe : pat = [] := by simpa using hp
      subst h0
      simp [hpe]
    · rw [if_neg hp] at h
      cases h
  | cons c t ih =>
    unfold firstOcc at h
    by_cases hp : pat.isPrefixOf (c :: t) = true
    · rw [if_pos hp] at h
      have h0 : i = 0 := by
        have := Option.some.inj h
        omega
      subst h0
      simpa using List.IsPrefix.length_le (List.isPrefixOf_iff_prefix.mp hp)
    · rw [if_neg hp] at h
      cases hf : firstOcc t pat with
      | none => rw [hf] at h; cases h
      | some j =>
        rw [hf] at h
        have hij : i = j + 1 := (Option.some.inj h).symm
        subst hij
        have := ih hf
        simp only [List.length_cons]
        omega

theorem replace1_some {s pat rep : Str} {i : Nat} (h : firstOcc s pat = some i) :
    replace1 s pat rep = s.take i ++ rep ++ s.drop (i + pat.length) := by
  have h2 := replace1_eq_firstOcc s pat rep
  rw [h] at h2
  exact h2

theorem replace1_undo {t po pn : Str} (h1 : hasSub t po = true)
    (hf : firstOcc (replace1 t po pn) pn = firstOcc t po) :
    replace1 (replace1 t po pn) pn po = t := by
  have hsome : (firstOcc t po).isSome := by rw [← hasSub_eq_isSome]; exact h1
  obtain ⟨i, hi⟩ := Option.isSome_iff_exists.mp hsome
  have hib := firstOcc_bound hi
  have hit : i ≤ t.length := by omega
  have hrw : replace1 t po pn = t.take i ++ pn ++ t.drop (i + po.length) :=
    replace1_some hi
  have hfi : firstOcc (replace1 t po pn) pn = some i := hf.trans hi
  rw [replace1_some hfi, hrw]
  have hlen : (t.take i).length = i := by
    rw [List.length_take]
    omega
  have htake : (t.take i ++ pn ++ t.drop (i + po.length)).take i = t.take i := by
    rw [List.append_assoc, List.take_append_of_le_length (by omega)]
    rw [List.take_take]
    simp
  have hdrop : (t.take i ++ pn ++ t.drop (i + po.length)).drop (i + pn.length)
      = t.drop (i + po.length) := by
    have hl : (t.take i ++ pn).length = i + pn.length := by
      rw [List.length_append, hlen]
    rw [← hl, List.drop_left]
  rw [htake, hdrop]
  exact firstOcc_decomp hi

/-! ## Frame lemmas for decoded JSON objects -/

theorem jlookup_jset_ne {fs : List (Str × JVal)} {k k2 : Str} {v : JVal}
    (h : k2 ≠ k) : jlookup (jset fs k v) k2 = jlookup fs k2 := by
  induction fs with
  | nil => rfl
  | cons p t ih =>
    unfold jset at *
    rw [List.map_cons]
    by_cases hk2 : p.1 = k2
    · have hpk : ¬(p.1 = k) := fun he => h (hk2 ▸ he)
      rw [if_neg hpk]
      unfold jlookup
      rw [List.find?_cons_of_pos _ (by simpa using hk2),
        List.find?_cons_of_pos _ (by simpa using hk2)]
    · unfold jlookup
      have hd1 : (if p.1 = k then (p.1, v) else p).1 = p.1 := by
        by_cases hpk : p.1 = k
        · rw [if_pos hpk]
        · rw [if_neg hpk]
      rw [List.find?_cons_of_neg _ (by simp [hd1, hk2]),
        List.find?_cons_of_neg _ (by simpa using hk2)]
      exact ih

theorem jset_keys (fs : List (Str × JVal)) (k : Str) (v : JVal) :
    (jset fs k v).map Prod.fst = fs.map Prod.fst := by
  unfold jset
  rw [List.map_map]
  apply List.map_congr_left
  intro p _
  by_cases hp : p.1 = k
  · simp [hp]
  · simp [hp]

theorem jset_mem_ne {fs : List (Str × JVal)} {k : Str} {v : JVal}
    {pr : Str × JVal} (hm : pr ∈ fs) (hne : ¬(pr.1 = k)) : pr ∈ jset fs k v :=
  List.mem_map.mpr ⟨pr, hm, by rw [if_neg hne]⟩

/-- C6: a rename changes only the name itself in each modified
representation. A migrated settings row keeps its value verbatim under
the new key (under the side conditions of the key migration); a rewritten
decoded blob keeps every field other than `title` verbatim (same field
names in the same order, same bindings); a rewritten raw-text blob
changes exactly the matched pattern window, keeping the surrounding text
verbatim. -/
theorem C6_rename_frame (old new : Str) (db : DB)
    (hold : plainStr old = true)
    (hkeys : ∀ kv ∈ db.settings, plainStr kv.key = true)
    (hnd : (db.settings.map Setting.key).Nodup)
    (hfresh : ∀ kv ∈ db.settings, (vehPre new).isPrefixOf kv.key = false) :
    (∀ kv ∈ db.settings, (vehPre old).isPrefixOf kv.key = true →
      (⟨vehPre new ++ kv.key.drop (vehPre old).length, kv.value⟩ : Setting)
        ∈ (RenameVehicle old new db).2.settings)
    ∧ (∀ fs, ∃ fs2, cfgApply old new (.obj fs) = .obj fs2
        ∧ fs2.map Prod.fst = fs.map Prod.fst
        ∧ (∀ k, k ≠ str "title" → jlookup fs2 k = jlookup fs k)
        ∧ (∀ pr ∈ fs, ¬(pr.1 = str "title") → pr ∈ fs2))
    ∧ (∀ t, hasSub t (titlePat old) = true →
        ∃ pre suf, t = pre ++ titlePat old ++ suf
          ∧ cfgApply old new (.raw t) = .raw (pre ++ titlePat new ++ suf)) := by
  refine ⟨?_, ?_, ?_⟩
  · intro kv hm hp
    have hsel : ∀ kv ∈ db.settings,
        likeMatch (vehPre old ++ ['%']) kv.key = (vehPre old).isPrefixOf kv.key :=
      fun kv hm => likeMatch_plain kv.key (plainStr_vehPre hold) (hkeys kv hm)
    unfold RenameVehicle
    simp only []
    rw [renameSettingsKeys_snd hsel hnd hfresh]
    exact List.mem_append_right _
      (List.mem_map.mpr ⟨kv, List.mem_filter.mpr ⟨hm, hp⟩, rfl⟩)
  · intro fs
    refine ⟨jset fs (str "title") (.jstr new), rfl, jset_keys fs _ _,
      fun k hk => jlookup_jset_ne hk, fun pr hm hne => jset_mem_ne hm hne⟩
  · intro t hsub
    have hsome : (firstOcc t (titlePat old)).isSome := by
      rw [← hasSub_eq_isSome]; exact hsub
    obtain ⟨i, hi⟩ := Option.isSome_iff_exists.mp hsome
    refine ⟨t.take i, t.drop (i + (titlePat old).length),
      (firstOcc_decomp hi).symm, ?_⟩
    change Blob.raw (replace1 t (titlePat old) (titlePat new)) = _
    rw [replace1_some hi]

/-- C6 witness. -/
theorem C6_rename_frame_witness :
    (⟨str "vehicle.n.x", str "7"⟩ : Setting) ∈
      ((RenameVehicle (str "m") (str "n")
          ⟨[], [⟨str "vehicle.m.x", str "7"⟩], []⟩).2).settings := by
  have h := (C6_rename_frame (str "m") (str "n")
    ⟨[], [⟨str "vehicle.m.x", str "7"⟩], []⟩
    (by decide) (by decide) (by decide) (by decide)).1
    ⟨str "vehicle.m.x", str "7"⟩ (by decide) (by decide)
  simpa using h

/-! ## The structured-decode / text-fallback policy of the blob matcher -/

/-- C7: for class-matching rows whose blob fails structured decoding, the
engine replaces exactly the first occurrence of the literal pattern
`title: old` (the decomposition below sits at the first occurrence: no
earlier position carries the pattern) and counts the row; a raw blob
without the pattern, and a decoded blob whose `title` attribute is absent
or not a string, are left untouched and uncounted (decode failure is
never an error: the count of the total function equals the counting
mode's predicate over all rows). -/
theorem C7_fallback_policy (old new : Str) (cls : Nat) (db : DB)
    (hnd : (db.configs.map ConfigRow.id).Nodup) :
    (∀ r ∈ db.configs, r.cls = cls → ∀ t, r.value = .raw t →
      (hasSub t (titlePat old) = true →
        ({ r with value := .raw (replace1 t (titlePat old) (titlePat new)) } : ConfigRow)
          ∈ (renameInConfigsJSON cls old new db.configs).2)
      ∧ (hasSub t (titlePat old) = false →
          r ∈ (renameInConfigsJSON cls old new db.configs).2))
    ∧ (∀ r ∈ db.configs, r.cls = cls → ∀ fs, r.value = .obj fs →
        (∀ s, jlookup fs (str "title") ≠ some (.jstr s)) →
          r ∈ (renameInConfigsJSON cls old new db.configs).2)
    ∧ (∀ t i, firstOcc t (titlePat old) = some i →
        replace1 t (titlePat old) (titlePat new)
            = t.take i ++ titlePat new ++ t.drop (i + (titlePat old).length)
          ∧ (∀ j < i, (titlePat old).isPrefixOf (t.drop j) = false))
    ∧ (renameInConfigsJSON cls old new db.configs).1
        = countConfigsWithTitle cls old db.configs := by
  have heff := renameInConfigsJSON_snd cls old new hnd
  refine ⟨?_, ?_, ?_, renameInConfigsJSON_fst cls old new db.configs⟩
  · intro r hm hcls t hv
    constructor
    · intro hsub
      rw [heff]
      refine List.mem_map.mpr ⟨r, hm, ?_⟩
      have hhit : cfgHit old r.value = true := by
        rw [hv]; unfold cfgHit; exact hsub
      unfold cfgRowApply
      rw [if_pos (by simp [hcls, hhit])]
      rw [hv]
      rfl
    · intro hsub
      rw [heff]
      refine List.mem_map.mpr ⟨r, hm, ?_⟩
      have hhit : cfgHit old r.value = false := by
        rw [hv]; unfold cfgHit; exact hsub
      unfold cfgRowApply
      rw [if_neg (by simp [hhit])]
  · intro r hm hcls fs hv hti
    rw [heff]
    refine List.mem_map.mpr ⟨r, hm, ?_⟩
    have hhit : cfgHit old r.value = false := by
      rw [hv]
      cases hl : jlookup fs (str "title") with
      | none => simp only [cfgHit, hl]
      | some jv =>
        cases jv with
        | jstr s => exact absurd hl (hti s)
        | jother n => simp only [cfgHit, hl]
    unfold cfgRowApply
    rw [if_neg (by simp [hhit])]
  · intro t i hi
    exact ⟨replace1_some hi, firstOcc_min hi⟩

/-- C7 witness: the spec's scenario — a raw blob `title: OldCar\ntype: x`
of the matching class is rewritten to `title: NewCar\ntype: x`. -/
theorem C7_fallback_policy_witness :
    (⟨9, 3, .raw (str "title: NewCar\ntype: x"), 4⟩ : ConfigRow) ∈
      (renameInConfigsJSON 3 (str "OldCar") (str "NewCar")
        [⟨9, 3, .raw (str "title: OldCar\ntype: x"), 4⟩]).2 := by
  have h := ((C7_fallback_policy (str "OldCar") (str "NewCar") 3
    ⟨[], [], [⟨9, 3, .raw (str "title: OldCar\ntype: x"), 4⟩]⟩
    (by decide)).1
    ⟨9, 3, .raw (str "title: OldCar\ntype: x"), 4⟩ (by decide) (by decide)
    (str "title: OldCar\ntype: x") rfl).1 (by decide)
  simpa using h

/-! ## Transfer orchestration properties -/

/-- C8: with `DryRun` set, `Transfer` never changes either database —
the final source and destination states are the initial ones, so every
table's row count is unchanged in both, including runs that end in an
error during the preview (a failing row-count read or an invalid table
list). -/
theorem C8_dry_run_pure (failIns : Str → Nat → Bool) (src dst : Store)
    (opts : TransferOptions) (h : opts.dryRun = true) :
    (Transfer failIns src dst opts).2.1 = src
    ∧ (Transfer failIns src dst opts).2.2 = dst
    ∧ (∀ t, getRowCount ((Transfer failIns src dst opts).2.1).gen t
        = getRowCount src.gen t)
    ∧ (∀ t, getRowCount ((Transfer failIns src dst opts).2.2).gen t
        = getRowCount dst.gen t) := by
  have hstates : (Transfer failIns src dst opts).2.1 = src
      ∧ (Transfer failIns src dst opts).2.2 = dst := by
    unfold Transfer
    cases hr : resolveTables opts with
    | error e => exact ⟨rfl, rfl⟩
    | ok tables =>
      rw [h]
      simp only [if_true]
      cases hd : dryTablesLoop src.gen dst.gen tables with
      | error e => exact ⟨rfl, rfl⟩
      | ok dtl => exact ⟨rfl, rfl⟩
  exact ⟨hstates.1, hstates.2,
    fun t => by rw [hstates.1], fun t => by rw [hstates.2]⟩

/-- C3: whenever a real (non-dry-run) `Transfer` returns an error — in
particular when copying any resolved table fails, e.g. because source and
destination share no column — the destination is left exactly as it was:
the shared transaction is rolled back (all rows written for the failing
table and for previously copied tables are discarded) and no rename
directive is applied. -/
theorem C3_copy_failure_rolls_back (failIns : Str → Nat → Bool)
    (src dst : Store) (opts : TransferOptions)
    (hdry : opts.dryRun = false)
    (herr : (Transfer failIns src dst opts).1 = .error ()) :
    (Transfer failIns src dst opts).2.2 = dst
    ∧ (Transfer failIns src dst opts).2.1 = src := by
  unfold Transfer at herr ⊢
  cases hr : resolveTables opts with
  | error e => exact ⟨rfl, rfl⟩
  | ok tables =>
    rw [hr] at herr
    rw [hdry] at herr ⊢
    simp only [if_false, Bool.false_eq_true] at herr ⊢
    cases hc : copyTablesLoop failIns src.gen dst.gen dst.gen [] tables with
    | error e => exact ⟨rfl, rfl⟩
    | ok pr =>
      rw [hc] at herr
      cases herr

/-- C3 witness: a transfer of table `t` whose source and destination
schemas share no column fails and leaves the destination untouched. -/
theorem C3_copy_failure_rolls_back_witness :
    (Transfer (fun _ _ => false)
        ⟨[(str "t", ⟨[⟨str "b", str "", false, none, false⟩], [[(str "b", Val.null)]]⟩)],
         ⟨[], [], []⟩⟩
        ⟨[(str "t", ⟨[⟨str "a", str "", false, none, false⟩], []⟩)], ⟨[], [], []⟩⟩
        ⟨.all, [str "t"], false, [], []⟩).2.2
      = ⟨[(str "t", ⟨[⟨str "a", str "", false, none, false⟩], []⟩)], ⟨[], [], []⟩⟩ :=
  (C3_copy_failure_rolls_back (fun _ _ => false)
    ⟨[(str "t", ⟨[⟨str "b", str "", false, none, false⟩], [[(str "b", Val.null)]]⟩)],
     ⟨[], [], []⟩⟩
    ⟨[(str "t", ⟨[⟨str "a", str "", false, none, false⟩], []⟩)], ⟨[], [], []⟩⟩
    ⟨.all, [str "t"], false, [], []⟩ rfl rfl).1

/-- C8 witness. -/
theorem C8_dry_run_pure_witness :
    (Transfer (fun _ _ => false) ⟨[], ⟨[], [], []⟩⟩ ⟨[], ⟨[], [], []⟩⟩
        ⟨.config, [], true, [], []⟩).2.2 = ⟨[], ⟨[], [], []⟩⟩ :=
  (C8_dry_run_pure (fun _ _ => false) ⟨[], ⟨[], [], []⟩⟩ ⟨[], ⟨[], [], []⟩⟩
    ⟨.config, [], true, [], []⟩ rfl).2.1

/-! ## Row counts of a table copy -/

theorem findTable_updateTable (g : GenDB) (t : Str) (f : GTable → GTable) :
    findTable (updateTable g t f) t = (findTable g t).map f := by
  induction g with
  | nil => rfl
  | cons p rest ih =>
    unfold updateTable at ih ⊢
    unfold findTable at ih ⊢
    rw [List.map_cons]
    by_cases hp : p.1 = t
    · rw [if_pos hp]
      rw [List.find?_cons_of_pos _ (by simpa using hp)]
      rw [List.find?_cons_of_pos _ (by simpa using hp)]
      rfl
    · rw [if_neg hp]
      rw [List.find?_cons_of_neg _ (by simpa using hp)]
      rw [List.find?_cons_of_neg _ (by simpa using hp)]
      exact ih

theorem copyLoop_ok {failIns : Nat → Bool} (hfail : ∀ i, failIns i = false)
    (t : Str) (rows : List Row) :
    ∀ (copied : Nat) (tx : GenDB),
      (copyLoop failIns t rows copied tx).2 = .ok (copied + rows.length)
      ∧ (copyLoop failIns t rows copied tx).1
        = rows.foldl (fun g r => updateTable g t fun tb => insertOrReplaceRow tb r) tx := by
  induction rows with
  | nil => intro copied tx; exact ⟨by simp [copyLoop], rfl⟩
  | cons r rest ih =>
    intro copied tx
    unfold copyLoop
    rw [if_neg (by rw [hfail copied]; exact Bool.false_ne_true)]
    refine ⟨?_, (ih (copied + 1) _).2⟩
    rw [(ih (copied + 1) _).1]
    congr 1
    simp only [List.length_cons]
    omega

theorem insert_fold_find {t : Str} {cols : List ColumnInfo} (rows : List Row) :
    ∀ (tx : GenDB) (acc : List Row),
      findTable tx t = some ⟨cols, acc⟩ →
      (∀ b ∈ rows, insertReplaces cols b = true →
        ∀ a ∈ acc, pkConflict (pkNames cols) b a = false) →
      rows.Pairwise (fun a b => insertReplaces cols b = true →
        pkConflict (pkNames cols) b a = false) →
      findTable (rows.foldl
          (fun g r => updateTable g t fun tb => insertOrReplaceRow tb r) tx) t
        = some ⟨cols, acc ++ rows⟩ := by
  induction rows with
  | nil =>
    intro tx acc hf _ _
    simpa using hf
  | cons r rest ih =>
    intro tx acc hf hacc hpw
    rw [List.foldl_cons]
    rw [List.pairwise_cons] at hpw
    have hstep : findTable (updateTable tx t fun tb => insertOrReplaceRow tb r) t
        = some (⟨cols, acc ++ [r]⟩ : GTable) := by
      rw [findTable_updateTable, hf]
      unfold insertOrReplaceRow
      by_cases hir : insertReplaces cols r = true
      · rw [Option.map_some']
        simp only [if_pos hir]
        have hkeep : acc.filter (fun r2 => !pkConflict (pkNames cols) r r2) = acc := by
          rw [List.filter_eq_self]
          intro a ha
          rw [hacc r (List.mem_cons_self _ _) hir a ha]
          rfl
        rw [hkeep]
      · rw [Option.map_some']
        simp only [if_neg hir]
    have hres := ih _ (acc ++ [r]) hstep
      (by
        intro b hb hirb a ha
        rcases List.mem_append.mp ha with ha | ha
        · exact hacc b (List.mem_cons_of_mem _ hb) hirb a ha
        · rw [List.mem_singleton] at ha
          subst ha
          exact hpw.1 b hb hirb)
      hpw.2
    rw [hres, List.append_assoc]
    rfl

/-- C4: a copy of a table present in both databases with a non-empty
name-based column intersection and no per-row failure returns a copied
count equal to the source row count; when the destination table is empty
beforehand (and the restricted source rows are pairwise distinct on the
destination primary key whenever the insert takes the replace branch),
the destination row count afterwards equals the source row count. -/
theorem C4_copy_table_counts (failIns : Nat → Bool) (src dst0 tx : GenDB)
    (t : Str) (ts td txt : GTable)
    (hsrc : findTable src t = some ts)
    (hdst : findTable dst0 t = some td)
    (htx : findTable tx t = some txt)
    (hcommon : (intersectColumns ts.cols td.cols).isEmpty = false)
    (hfail : ∀ i, failIns i = false)
    (hempty : txt.rows = [])
    (hpw : (ts.rows.map
        (restrictRow ((intersectColumns ts.cols td.cols).map (·.name)))).Pairwise
      (fun a b => insertReplaces txt.cols b = true →
        pkConflict (pkNames txt.cols) b a = false)) :
    (copyTableWithTx failIns src dst0 tx t).2 = .ok ts.rows.length
    ∧ getRowCount (copyTableWithTx failIns src dst0 tx t).1 t
        = some ts.rows.length := by
  have hsc : getTableColumns src t = ts.cols := by
    unfold getTableColumns
    rw [hsrc]
  have hdc : getTableColumns dst0 t = td.cols := by
    unfold getTableColumns
    rw [hdst]
  have hrc : getRowCount src t = some ts.rows.length := by
    unfold getRowCount
    rw [hsrc]
    rfl
  have heq : copyTableWithTx failIns src dst0 tx t
      = if ts.rows.length = 0 then (tx, .ok 0)
        else copyLoop failIns t
          (ts.rows.map
            (restrictRow ((intersectColumns ts.cols td.cols).map (·.name)))) 0 tx := by
    unfold copyTableWithTx
    rw [hsc, hdc]
    rw [if_neg (by rw [hcommon]; exact Bool.false_ne_true)]
    rw [hrc, hsrc]
  rw [heq]
  by_cases hz : ts.rows.length = 0
  · rw [if_pos hz]
    refine ⟨by rw [hz], ?_⟩
    unfold getRowCount
    rw [htx]
    rw [hz]
    simp [hempty]
  · rw [if_neg hz]
    have hloop := copyLoop_ok hfail t
      (ts.rows.map (restrictRow ((intersectColumns ts.cols td.cols).map (·.name)))) 0 tx
    refine ⟨by rw [hloop.1]; simp, ?_⟩
    rw [hloop.2]
    have htx0 : findTable tx t = some (⟨txt.cols, []⟩ : GTable) := by
      rw [htx, ← hempty]
    have hff := insert_fold_find
      (ts.rows.map (restrictRow ((intersectColumns ts.cols td.cols).map (·.name))))
      tx [] htx0 (by intro b _ _ a ha; cases ha) hpw
    unfold getRowCount
    rw [hff]
    simp

/-- C4 witness: one source row is copied into an empty destination table
which afterwards holds one row. -/
theorem C4_copy_table_counts_witness :
    (copyTableWithTx (fun _ => false)
        [(str "t", ⟨[⟨str "a", str "", false, none, true⟩], [[(str "a", Val.num 1)]]⟩)]
        [(str "t", ⟨[⟨str "a", str "", false, none, true⟩], []⟩)]
        [(str "t", ⟨[⟨str "a", str "", false, none, true⟩], []⟩)]
        (str "t")).2 = .ok 1 := by
  have h := (C4_copy_table_counts (fun _ => false)
    [(str "t", ⟨[⟨str "a", str "", false, none, true⟩], [[(str "a", Val.num 1)]]⟩)]
    [(str "t", ⟨[⟨str "a", str "", false, none, true⟩], []⟩)]
    [(str "t", ⟨[⟨str "a", str "", false, none, true⟩], []⟩)]
    (str "t")
    ⟨[⟨str "a", str "", false, none, true⟩], [[(str "a", Val.num 1)]]⟩
    ⟨[⟨str "a", str "", false, none, true⟩], []⟩
    ⟨[⟨str "a", str "", false, none, true⟩], []⟩
    rfl rfl rfl (by decide) (fun i => rfl) rfl
    (by simp)).1
  simpa using h

/-! ## Which handle feeds the rename previews -/

/-- C10 counterexample: two states that differ in the rows matching the
directive (same matching vehicle, different payload) on which the
source-side dry-run counts nevertheless equal the destination-side
mutating counts — refuting "differ in matching rows implies the counts
differ". -/
theorem C10_handle_counterexample :
    (⟨[⟨str "lp", some (str "A"), 0⟩], [], []⟩ : DB)
        ≠ ⟨[⟨str "lp", some (str "A"), 1⟩], [], []⟩
    ∧ RenameVehicleDryRun (str "A") (str "B")
          ⟨[⟨str "lp", some (str "A"), 0⟩], [], []⟩
        = (RenameVehicle (str "A") (str "B")
            ⟨[⟨str "lp", some (str "A"), 1⟩], [], []⟩).1 := by
  constructor
  · decide
  · decide

/-- C10 (amended): in `Transfer`, the dry-run previews are computed
against the source handle while the real run applies the renames to the
destination handle after commit; consequently the previewed counts equal
the counts mutating the destination would report whenever source and
destination agree on the rename-relevant rows (matching session rows,
prefix-matching settings keys, title-matching configs blobs) — but
differing states need not produce differing counts. -/
theorem C10_preview_vs_real (failIns : Str → Nat → Bool) (src dst : Store)
    (opts : TransferOptions) :
    (∀ rep, opts.dryRun = true → (Transfer failIns src dst opts).1 = .ok rep →
        rep.lpPreviews = opts.loadpointRenames.map
          (fun p => RenameLoadpointDryRun p.oldName p.newName src.core)
        ∧ rep.vehPreviews = opts.vehicleRenames.map
          (fun p => RenameVehicleDryRun p.oldName p.newName src.core))
    ∧ (∀ rep, opts.dryRun = false → (Transfer failIns src dst opts).1 = .ok rep →
        ((Transfer failIns src dst opts).2.2).core
          = opts.vehicleRenames.foldl
              (fun c p => (RenameVehicle p.oldName p.newName c).2)
              (opts.loadpointRenames.foldl
                (fun c p => (RenameLoadpoint p.oldName p.newName c).2) dst.core))
    ∧ (∀ old new,
        src.core.sessions.countP (rowMatches .vehicle old)
            = dst.core.sessions.countP (rowMatches .vehicle old) →
        src.core.settings.countP
            (fun kv => likeMatch (str "vehicle." ++ old ++ str ".%") kv.key)
          = dst.core.settings.countP
            (fun kv => likeMatch (str "vehicle." ++ old ++ str ".%") kv.key) →
        countConfigsWithTitle 3 old src.core.configs
            = countConfigsWithTitle 3 old dst.core.configs →
        RenameVehicleDryRun old new src.core
          = (RenameVehicle old new dst.core).1) := by
  refine ⟨?_, ?_, ?_⟩
  · intro rep hdry hok
    unfold Transfer at hok
    cases hr : resolveTables opts with
    | error e => rw [hr] at hok; cases hok
    | ok tables =>
      rw [hr, hdry] at hok
      simp only [if_true] at hok
      cases hd : dryTablesLoop src.gen dst.gen tables with
      | error e => rw [hd] at hok; cases hok
      | ok dtl =>
        rw [hd] at hok
        have := Except.ok.inj hok
        rw [← this]
        exact ⟨rfl, rfl⟩
  · intro rep hdry hok
    unfold Transfer at hok ⊢
    cases hr : resolveTables opts with
    | error e => rw [hr] at hok; cases hok
    | ok tables =>
      rw [hr] at hok
      simp only [hdry, Bool.false_eq_true, if_false] at hok ⊢
      cases hc : copyTablesLoop failIns src.gen dst.gen dst.gen [] tables with
      | error e =>
        rw [hc] at hok
        cases hok
      | ok pr => rfl
  · intro old new hs ht hc
    rw [renameVehicle_counts]
    unfold RenameVehicleDryRun
    rw [hs, ht, hc]

/-- C10 witness: with identical rename-relevant state on both sides the
source-side preview equals the destination-side mutating count. -/
theorem C10_preview_vs_real_witness :
    RenameVehicleDryRun (str "A") (str "B") ⟨[⟨str "lp", some (str "A"), 0⟩], [], []⟩
      = (RenameVehicle (str "A") (str "B")
          ⟨[⟨str "lp", some (str "A"), 0⟩], [], []⟩).1 :=
  (C10_preview_vs_real (fun _ _ => false)
    ⟨[], ⟨[⟨str "lp", some (str "A"), 0⟩], [], []⟩⟩
    ⟨[], ⟨[⟨str "lp", some (str "A"), 0⟩], [], []⟩⟩
    ⟨.config, [], true, [], []⟩).2.2 (str "A") (str "B") rfl rfl rfl

/-! ## Round-trip behaviour of the three representations -/

theorem rowMatches_after_set (c : SessCol) (old new : Str) (r : SessionRow)
    (hne : old ≠ new) : rowMatches c old (rowSet c new r) = false := by
  cases c
  · simp only [rowMatches, rowSet]
    simpa using Ne.symm hne
  · simp only [rowMatches, rowSet]
    simpa using Ne.symm hne

theorem rowMatches_set_self (c : SessCol) (v : Str) (r : SessionRow) :
    rowMatches c v (rowSet c v r) = true := by
  cases c
  · simp [rowMatches, rowSet]
  · simp [rowMatches, rowSet]

theorem rowSet_undo {c : SessCol} {old new : Str} {r : SessionRow}
    (h : rowMatches c old r = true) : rowSet c old (rowSet c new r) = r := by
  cases c
  · cases r with
    | mk lp veh pl =>
      simp only [rowMatches] at h
      simp only [rowSet]
      simp only [decide_eq_true_eq] at h
      rw [h]
  · cases r with
    | mk lp veh pl =>
      simp only [rowMatches] at h
      simp only [rowSet]
      simp only [decide_eq_true_eq] at h
      rw [h]

theorem sessions_engine_roundtrip (c : SessCol) (old new : Str)
    (rows : List SessionRow) (hne : old ≠ new)
    (habs : ∀ r ∈ rows, rowMatches c new r = false) :
    ((renameInSessions c old new rows).2.countP (rowMatches c old) = 0)
    ∧ ((renameInSessions c old new (renameInSessions c old new rows).2).2
        = (renameInSessions c old new rows).2)
    ∧ ((renameInSessions c new old (renameInSessions c old new rows).2).2 = rows) := by
  unfold renameInSessions
  simp only []
  have hrow : ∀ r ∈ rows,
      rowMatches c old (if rowMatches c old r then rowSet c new r else r) = false := by
    intro r hm
    by_cases h : rowMatches c old r = true
    · rw [if_pos h]
      exact rowMatches_after_set c old new r hne
    · rw [if_neg h]
      exact Bool.eq_false_iff.mpr h
  refine ⟨?_, ?_, ?_⟩
  · rw [List.countP_eq_zero]
    intro r hm
    rcases List.mem_map.mp hm with ⟨r0, hm0, he⟩
    rw [← he, hrow r0 hm0]
    simp
  · rw [List.map_map]
    apply List.map_congr_left
    intro r hm
    simp only [Function.comp]
    rw [if_neg (by rw [hrow r hm]; exact Bool.false_ne_true)]
  · rw [List.map_map]
    conv_rhs => rw [← List.map_id rows]
    apply List.map_congr_left
    intro r hm
    simp only [Function.comp, id]
    by_cases h : rowMatches c old r = true
    · rw [if_pos h, if_pos (rowMatches_set_self c new r), rowSet_undo h]
    · rw [if_neg h, if_neg (by rw [habs r hm]; exact Bool.false_ne_true)]

theorem settingsValue_roundtrip (pat old new : Str) (st : List Setting)
    (hne : old ≠ new)
    (habs : ∀ kv ∈ st, ¬(likeMatch pat kv.key = true ∧ kv.value = new)) :
    ((renameSettingsValue pat old new st).2.countP
        (fun kv => likeMatch pat kv.key && kv.value = old) = 0)
    ∧ ((renameSettingsValue pat old new (renameSettingsValue pat old new st).2).2
        = (renameSettingsValue pat old new st).2)
    ∧ ((renameSettingsValue pat new old (renameSettingsValue pat old new st).2).2
        = st) := by
  unfold renameSettingsValue
  simp only []
  have hrow : ∀ kv ∈ st,
      (likeMatch pat (if likeMatch pat kv.key && kv.value = old
          then { kv with value := new } else kv).key
        && ((if likeMatch pat kv.key && kv.value = old
          then { kv with value := new } else kv).value = old)) = false := by
    intro kv hm
    by_cases h : (likeMatch pat kv.key && kv.value = old) = true
    · rw [if_pos h]
      simp only []
      rw [decide_eq_false (Ne.symm hne), Bool.and_false]
    · rw [if_neg h]
      exact Bool.eq_false_iff.mpr h
  refine ⟨?_, ?_, ?_⟩
  · rw [List.countP_eq_zero]
    intro kv hm
    rcases List.mem_map.mp hm with ⟨kv0, hm0, he⟩
    rw [← he, hrow kv0 hm0]
    simp
  · rw [List.map_map]
    apply List.map_congr_left
    intro kv hm
    simp only [Function.comp]
    rw [if_neg (by rw [hrow kv hm]; exact Bool.false_ne_true)]
  · rw [List.map_map]
    conv_rhs => rw [← List.map_id st]
    apply List.map_congr_left
    intro kv hm
    simp only [Function.comp, id]
    by_cases h : (likeMatch pat kv.key && kv.value = old) = true
    · simp only [if_pos h]
      have h' := h
      simp only [Bool.and_eq_true, decide_eq_true_eq] at h'
      obtain ⟨h1, h2'⟩ := h'
      rw [if_pos (by simp [h1])]
      cases kv with
      | mk k0 v0 =>
        simp only [] at h2' ⊢
        rw [h2']
    · simp only [if_neg h]
      rw [if_neg (by
        intro hc
        simp only [Bool.and_eq_true, decide_eq_true_eq] at hc
        exact habs kv hm ⟨hc.1, hc.2⟩)]

theorem jlookup_jset_self {fs : List (Str × JVal)} {k : Str} (v : JVal)
    (h : (jlookup fs k).isSome = true) : jlookup (jset fs k v) k = some v := by
  induction fs with
  | nil => simp [jlookup] at h
  | cons p t ih =>
    unfold jset at ih ⊢
    rw [List.map_cons]
    by_cases hp : p.1 = k
    · rw [if_pos hp]
      unfold jlookup
      rw [List.find?_cons_of_pos _ (by simpa using hp)]
      rfl
    · rw [if_neg hp]
      unfold jlookup at h ih ⊢
      rw [List.find?_cons_of_neg _ (by simpa using hp)] at h ⊢
      exact ih h

theorem jset_jset (fs : List (Str × JVal)) (k : Str) (v w : JVal) :
    jset (jset fs k v) k w = jset fs k w := by
  unfold jset
  rw [List.map_map]
  apply List.map_congr_left
  intro p _
  by_cases hp : p.1 = k
  · simp [hp]
  · simp [hp]

theorem jset_id_of_none {fs : List (Str × JVal)} {k : Str} (v : JVal)
    (h : ∀ q ∈ fs, ¬(q.1 = k)) : jset fs k v = fs := by
  unfold jset
  conv_rhs => rw [← List.map_id fs]
  apply List.map_congr_left
  intro p hp
  rw [if_neg (h p hp)]
  rfl

theorem jset_restore {fs : List (Str × JVal)} {k : Str} {v : JVal}
    (hnd : (fs.map Prod.fst).Nodup) (hl : jlookup fs k = some v) :
    jset fs k v = fs := by
  induction fs with
  | nil => rfl
  | cons p t ih =>
    rw [List.map_cons, List.nodup_cons] at hnd
    unfold jset
    rw [List.map_cons]
    by_cases hp : p.1 = k
    · rw [if_pos hp]
      unfold jlookup at hl
      rw [List.find?_cons_of_pos _ (by simpa using hp)] at hl
      simp only [Option.map_some'] at hl
      have hv : v = p.2 := (Option.some.inj hl).symm
      have ht : jset t k v = t := by
        apply jset_id_of_none
        intro q hq he
        exact hnd.1 ((hp.symm ▸ he) ▸ List.mem_map_of_mem Prod.fst hq)
      unfold jset at ht
      rw [ht, hv]
    · rw [if_neg hp]
      unfold jlookup at hl
      rw [List.find?_cons_of_neg _ (by simpa using hp)] at hl
      have := ih hnd.2 hl
      unfold jset at this
      rw [this]

theorem blob_roundtrip (old new : Str) (b : Blob) (hne : old ≠ new)
    (hund : cfgUndoable old new b = true)
    (hknd : ∀ fs, b = .obj fs → (fs.map Prod.fst).Nodup) :
    (cfgHit old (if cfgHit old b then cfgApply old new b else b) = false)
    ∧ ((if cfgHit new (if cfgHit old b then cfgApply old new b else b)
        then cfgApply new old (if cfgHit old b then cfgApply old new b else b)
        else (if cfgHit old b then cfgApply old new b else b)) = b) := by
  cases b with
  | raw t =>
    simp only [cfgUndoable] at hund
    by_cases hh : hasSub t (titlePat old) = true
    · rw [if_pos hh] at hund
      rw [Bool.and_eq_true] at hund
      obtain ⟨h2, h3⟩ := hund
      have h2' : hasSub (replace1 t (titlePat old) (titlePat new)) (titlePat old) = false := by
        simpa using h2
      have h3' : firstOcc (replace1 t (titlePat old) (titlePat new)) (titlePat new)
          = firstOcc t (titlePat old) := by
        simpa using h3
      have hhit : cfgHit old (Blob.raw t) = true := by
        simp only [cfgHit]
        exact hh
      rw [if_pos hhit]
      have happ : cfgApply old new (Blob.raw t)
          = Blob.raw (replace1 t (titlePat old) (titlePat new)) := rfl
      rw [happ]
      constructor
      · simp only [cfgHit]
        exact h2'
      · have hhit3 : cfgHit new
            (Blob.raw (replace1 t (titlePat old) (titlePat new))) = true := by
          simp only [cfgHit]
          rw [hasSub_eq_isSome, h3', ← hasSub_eq_isSome]
          exact hh
        rw [if_pos hhit3]
        have : cfgApply new old (Blob.raw (replace1 t (titlePat old) (titlePat new)))
            = Blob.raw (replace1 (replace1 t (titlePat old) (titlePat new))
                (titlePat new) (titlePat old)) := rfl
        rw [this, replace1_undo hh h3']
    · rw [if_neg hh] at hund
      have hh' : cfgHit old (Blob.raw t) = false := by
        simp only [cfgHit]
        simpa using hh
      rw [if_neg (by rw [hh']; exact Bool.false_ne_true)]
      refine ⟨hh', ?_⟩
      rw [if_neg (by
        simp only [cfgHit]
        rw [Bool.not_eq_true]
        simpa using hund)]
  | obj fs =>
    have hnd := hknd fs rfl
    simp only [cfgUndoable] at hund
    have hund' : ¬(jlookup fs (str "title") = some (.jstr new)) := by
      simpa using hund
    by_cases hh : cfgHit old (Blob.obj fs) = true
    · have hl : jlookup fs (str "title") = some (.jstr old) := by
        simp only [cfgHit] at hh
        cases hl2 : jlookup fs (str "title") with
        | none => rw [hl2] at hh; cases hh
        | some jv =>
          cases jv with
          | jstr s =>
            rw [hl2] at hh
            simp only [decide_eq_true_eq] at hh
            rw [hh]
          | jother n => rw [hl2] at hh; cases hh
      rw [if_pos hh]
      have happ : cfgApply old new (Blob.obj fs)
          = Blob.obj (jset fs (str "title") (.jstr new)) := rfl
      rw [happ]
      have hl1 : jlookup (jset fs (str "title") (.jstr new)) (str "title")
          = some (.jstr new) :=
        jlookup_jset_self _ (by rw [hl]; rfl)
      constructor
      · simp only [cfgHit]
        rw [hl1]
        simp only [decide_eq_false_iff_not]
        exact Ne.symm hne
      · rw [if_pos (by
          simp only [cfgHit]
          rw [hl1]
          simp)]
        have : cfgApply new old (Blob.obj (jset fs (str "title") (.jstr new)))
            = Blob.obj (jset (jset fs (str "title") (.jstr new))
                (str "title") (.jstr old)) := rfl
        rw [this, jset_jset, jset_restore hnd hl]
    · rw [if_neg hh]
      have hh3 : cfgHit new (Blob.obj fs) = false := by
        simp only [cfgHit]
        cases hl2 : jlookup fs (str "title") with
        | none => rfl
        | some jv =>
          cases jv with
          | jstr s =>
            simp only [decide_eq_false_iff_not]
            intro he
            rw [he] at hl2
            exact hund' hl2
          | jother n => rfl
      refine ⟨Bool.eq_false_iff.mpr hh, ?_⟩
      rw [if_neg (by rw [hh3]; exact Bool.false_ne_true)]

theorem cfgRowApply_roundtrip (cls : Nat) (old new : Str) (r : ConfigRow)
    (hne : old ≠ new)
    (hund : r.cls = cls → cfgUndoable old new r.value = true)
    (hknd : r.cls = cls → ∀ fs, r.value = .obj fs → (fs.map Prod.fst).Nodup) :
    cfgRowApply cls old new (cfgRowApply cls old new r) = cfgRowApply cls old new r
    ∧ cfgRowApply cls new old (cfgRowApply cls old new r) = r := by
  by_cases hc : r.cls = cls
  · have hb := blob_roundtrip old new r.value hne (hund hc) (hknd hc)
    by_cases hh : cfgHit old r.value = true
    · have h1 : cfgRowApply cls old new r
          = { r with value := cfgApply old new r.value } := by
        unfold cfgRowApply
        rw [if_pos (by simp [hc, hh])]
      rw [h1]
      rw [if_pos hh] at hb
      obtain ⟨hb1, hb2⟩ := hb
      constructor
      · unfold cfgRowApply
        rw [if_neg (by simp [hb1])]
      · by_cases h3 : cfgHit new (cfgApply old new r.value) = true
        · rw [if_pos h3] at hb2
          unfold cfgRowApply
          rw [if_pos (by simp [hc, h3])]
          cases r with
          | mk i c v pl =>
            simp only [] at hb2 ⊢
            rw [hb2]
        · rw [if_neg h3] at hb2
          unfold cfgRowApply
          rw [if_neg (by simp [h3])]
          cases r with
          | mk i c v pl =>
            simp only [] at hb2 ⊢
            rw [hb2]
    · have h1 : cfgRowApply cls old new r = r := by
        unfold cfgRowApply
        rw [if_neg (by simp [hh])]
      rw [h1]
      rw [if_neg hh] at hb
      obtain ⟨hb1, hb2⟩ := hb
      refine ⟨h1, ?_⟩
      by_cases h3 : cfgHit new r.value = true
      · rw [if_pos h3] at hb2
        unfold cfgRowApply
        rw [if_pos (by simp [hc, h3])]
        cases r with
        | mk i c v pl =>
          simp only [] at hb2 ⊢
          rw [hb2]
      · unfold cfgRowApply
        rw [if_neg (by simp [h3])]
  · have h1 : cfgRowApply cls old new r = r := by
      unfold cfgRowApply
      rw [if_neg (by simp [hc])]
    rw [h1]
    refine ⟨h1, ?_⟩
    unfold cfgRowApply
    rw [if_neg (by simp [hc])]

theorem configs_engine_roundtrip (cls : Nat) (old new : Str) (cs : List ConfigRow)
    (hne : old ≠ new) (hnd : (cs.map ConfigRow.id).Nodup)
    (hund : ∀ r ∈ cs, r.cls = cls → cfgUndoable old new r.value = true)
    (hknd : ∀ r ∈ cs, r.cls = cls → ∀ fs, r.value = .obj fs →
      (fs.map Prod.fst).Nodup) :
    ((renameInConfigsJSON cls old new (renameInConfigsJSON cls old new cs).2).2
        = (renameInConfigsJSON cls old new cs).2)
    ∧ ((renameInConfigsJSON cls new old
        (renameInConfigsJSON cls old new cs).2).2 = cs) := by
  have heff := renameInConfigsJSON_snd cls old new hnd
  have hid : ((renameInConfigsJSON cls old new cs).2).map ConfigRow.id
      = cs.map ConfigRow.id := by
    rw [heff, List.map_map]
    apply List.map_congr_left
    intro r _
    simp only [Function.comp]
    unfold cfgRowApply
    split <;> rfl
  have hnd1 : (((renameInConfigsJSON cls old new cs).2).map ConfigRow.id).Nodup := by
    rw [hid]
    exact hnd
  have heff2 := renameInConfigsJSON_snd cls old new hnd1
  have heff3 := renameInConfigsJSON_snd cls new old hnd1
  constructor
  · rw [heff2, heff, List.map_map]
    apply List.map_congr_left
    intro r hm
    simp only [Function.comp]
    exact (cfgRowApply_roundtrip cls old new r hne
      (fun h => hund r hm h) (fun h => hknd r hm h)).1
  · rw [heff3, heff, List.map_map]
    conv_rhs => rw [← List.map_id cs]
    apply List.map_congr_left
    intro r hm
    simp only [Function.comp, id]
    exact (cfgRowApply_roundtrip cls old new r hne
      (fun h => hund r hm h) (fun h => hknd r hm h)).2


theorem plainStr_drop {s : Str} (n : Nat) (h : plainStr s = true) :
    plainStr (s.drop n) = true := by
  unfold plainStr at *
  rw [List.all_eq_true] at *
  intro c hc
  exact h c ((List.drop_sublist n s).mem hc)

theorem setting_eq_of_key_eq {st : List Setting} (hnd : (st.map Setting.key).Nodup)
    {a b : Setting} (ha : a ∈ st) (hb : b ∈ st) (he : a.key = b.key) : a = b := by
  have h1 := filter_key_singleton hnd ha
  have hbmem : b ∈ st.filter (fun x => x.key = a.key) :=
    List.mem_filter.mpr ⟨hb, by simp [he.symm]⟩
  rw [h1] at hbmem
  exact (List.mem_singleton.mp hbmem).symm

theorem settingsKeys_roundtrip (oldP newP : Str) (st : List Setting)
    (hpo : plainStr oldP = true) (hpn : plainStr newP = true)
    (hkeys : ∀ kv ∈ st, plainStr kv.key = true)
    (hnd : (st.map Setting.key).Nodup)
    (hfresh : ∀ kv ∈ st, newP.isPrefixOf kv.key = false)
    (hon : oldP.isPrefixOf newP = false)
    (hno : newP.isPrefixOf oldP = false) :
    ((renameSettingsKeys oldP newP (renameSettingsKeys oldP newP st).2).1 = 0)
    ∧ ((renameSettingsKeys oldP newP (renameSettingsKeys oldP newP st).2).2
        = (renameSettingsKeys oldP newP st).2)
    ∧ (List.Perm ((renameSettingsKeys newP oldP
        (renameSettingsKeys oldP newP st).2).2) st) := by
  have hsel : ∀ kv ∈ st, likeMatch (oldP ++ ['%']) kv.key = oldP.isPrefixOf kv.key :=
    fun kv hm => likeMatch_plain _ hpo (hkeys kv hm)
  have hsnd := renameSettingsKeys_snd hsel hnd hfresh
  -- facts about the members of the migrated store
  have hmem : ∀ kv ∈ (renameSettingsKeys oldP newP st).2,
      (kv ∈ st ∧ oldP.isPrefixOf kv.key = false)
      ∨ (∃ kv0 ∈ st, oldP.isPrefixOf kv0.key = true
          ∧ kv = rekeyFn oldP newP kv0) := by
    intro kv hm
    rw [hsnd] at hm
    rcases List.mem_append.mp hm with h | h
    · have h1 := List.mem_filter.mp h
      exact Or.inl ⟨h1.1, by simpa using h1.2⟩
    · rcases List.mem_map.mp h with ⟨kv0, hm0, he⟩
      have h1 := List.mem_filter.mp hm0
      exact Or.inr ⟨kv0, h1.1, by simpa using h1.2, he.symm⟩
  have hk_plain : ∀ kv ∈ (renameSettingsKeys oldP newP st).2, plainStr kv.key = true := by
    intro kv hm
    rcases hmem kv hm with ⟨h1, _⟩ | ⟨kv0, hm0, _, he⟩
    · exact hkeys kv h1
    · rw [he]
      exact plainStr_append hpn (plainStr_drop _ (hkeys kv0 hm0))
  have hk_old : ∀ kv ∈ (renameSettingsKeys oldP newP st).2,
      oldP.isPrefixOf kv.key = false := by
    intro kv hm
    rcases hmem kv hm with ⟨_, h2⟩ | ⟨kv0, _, _, he⟩
    · exact h2
    · rw [he]
      exact not_isPre_append _ hon hno
  have hsel1 : ∀ kv ∈ (renameSettingsKeys oldP newP st).2,
      likeMatch (oldP ++ ['%']) kv.key = oldP.isPrefixOf kv.key :=
    fun kv hm => likeMatch_plain _ hpo (hk_plain kv hm)
  have hsel1n : ∀ kv ∈ (renameSettingsKeys oldP newP st).2,
      likeMatch (newP ++ ['%']) kv.key = newP.isPrefixOf kv.key :=
    fun kv hm => likeMatch_plain _ hpn (hk_plain kv hm)
  have hfilter0 : (renameSettingsKeys oldP newP st).2.filter
      (fun kv => likeMatch (oldP ++ ['%']) kv.key) = [] := by
    rw [List.filter_eq_nil_iff]
    intro kv hm
    rw [hsel1 kv hm, hk_old kv hm]
    exact Bool.false_ne_true
  have hid1 : ∀ (Y : List Setting),
      Y.filter (fun kv => likeMatch (oldP ++ ['%']) kv.key) = [] →
      (renameSettingsKeys oldP newP Y).1 = 0
        ∧ (renameSettingsKeys oldP newP Y).2 = Y := by
    intro Y hY
    unfold renameSettingsKeys
    simp only []
    rw [hY]
    exact ⟨rfl, rfl⟩
  refine ⟨(hid1 _ hfilter0).1, (hid1 _ hfilter0).2, ?_⟩
  · -- second application with the prefixes swapped
    have hstnd : st.Nodup := List.Nodup.of_map _ hnd
    have hnd1 : ((renameSettingsKeys oldP newP st).2.map Setting.key).Nodup := by
      rw [hsnd, List.map_append]
      refine List.Nodup.append ?_ ?_ ?_
      · exact List.Nodup.sublist
          (List.Sublist.map Setting.key (List.filter_sublist st)) hnd
      · rw [List.map_map]
        refine List.Nodup.map_on ?_
          (List.Nodup.filter _ hstnd)
        intro a ha b hb he
        have hpa : oldP.isPrefixOf a.key = true := by
          simpa using (List.mem_filter.mp ha).2
        have hpb : oldP.isPrefixOf b.key = true := by
          simpa using (List.mem_filter.mp hb).2
        simp only [Function.comp, rekeyFn] at he
        have hd := List.append_cancel_left he
        exact setting_eq_of_key_eq hnd (List.mem_of_mem_filter ha)
          (List.mem_of_mem_filter hb) (key_eq_of_drop_eq hpa hpb hd)
      · intro k hk1 hk2
        rcases List.mem_map.mp hk1 with ⟨kv, hkv, he1⟩
        rcases List.mem_map.mp hk2 with ⟨kv2, hkv2, he2⟩
        rcases List.mem_map.mp hkv2 with ⟨kv0, hkv0, he0⟩
        have h1 : newP.isPrefixOf k = false := by
          rw [← he1]
          exact hfresh kv (List.mem_of_mem_filter hkv)
        have h2 : newP.isPrefixOf k = true := by
          rw [← he2, ← he0]
          simp only [rekeyFn]
          exact isPre_of_append newP _
        rw [h1] at h2
        cases h2
    have hfresh1 : ∀ kv ∈ (renameSettingsKeys oldP newP st).2,
        oldP.isPrefixOf kv.key = false := hk_old
    have hsnd3 := renameSettingsKeys_snd hsel1n hnd1 hfresh1
    rw [hsnd3]
    have hA : (renameSettingsKeys oldP newP st).2.filter
        (fun kv => !newP.isPrefixOf kv.key)
        = st.filter (fun kv => !oldP.isPrefixOf kv.key) := by
      rw [hsnd, List.filter_append]
      have e1 : (st.filter (fun kv => !oldP.isPrefixOf kv.key)).filter
          (fun kv => !newP.isPrefixOf kv.key)
          = st.filter (fun kv => !oldP.isPrefixOf kv.key) := by
        rw [List.filter_eq_self]
        intro kv hm
        rw [hfresh kv (List.mem_of_mem_filter hm)]
        rfl
      have e2 : ((st.filter (fun kv => oldP.isPrefixOf kv.key)).map
            (rekeyFn oldP newP)).filter (fun kv => !newP.isPrefixOf kv.key) = [] := by
        rw [List.filter_eq_nil_iff]
        intro kv hm
        rcases List.mem_map.mp hm with ⟨kv0, _, he⟩
        rw [← he]
        simp only [rekeyFn]
        rw [isPre_of_append newP _]
        simp
      rw [e1, e2, List.append_nil]
    have hB : (renameSettingsKeys oldP newP st).2.filter
        (fun kv => newP.isPrefixOf kv.key)
        = (st.filter (fun kv => oldP.isPrefixOf kv.key)).map (rekeyFn oldP newP) := by
      rw [hsnd, List.filter_append]
      have e1 : (st.filter (fun kv => !oldP.isPrefixOf kv.key)).filter
          (fun kv => newP.isPrefixOf kv.key) = [] := by
        rw [List.filter_eq_nil_iff]
        intro kv hm
        rw [hfresh kv (List.mem_of_mem_filter hm)]
        exact Bool.false_ne_true
      have e2 : ((st.filter (fun kv => oldP.isPrefixOf kv.key)).map
            (rekeyFn oldP newP)).filter (fun kv => newP.isPrefixOf kv.key)
          = (st.filter (fun kv => oldP.isPrefixOf kv.key)).map (rekeyFn oldP newP) := by
        rw [List.filter_eq_self]
        intro kv hm
        rcases List.mem_map.mp hm with ⟨kv0, _, he⟩
        rw [← he]
        simp only [rekeyFn]
        exact isPre_of_append newP _
      rw [e1, e2, List.nil_append]
    rw [hA, hB, List.map_map]
    have hBB : (st.filter (fun kv => oldP.isPrefixOf kv.key)).map
        (rekeyFn newP oldP ∘ rekeyFn oldP newP)
        = st.filter (fun kv => oldP.isPrefixOf kv.key) := by
      conv_rhs => rw [← List.map_id (st.filter (fun kv => oldP.isPrefixOf kv.key))]
      apply List.map_congr_left
      intro kv hm
      have hp : oldP.isPrefixOf kv.key = true := by
        simpa using (List.mem_filter.mp hm).2
      simp only [Function.comp, rekeyFn, id]
      rw [List.drop_left]
      cases kv with
      | mk k0 v0 =>
        simp only [] at hp ⊢
        rw [isPre_append_drop hp]
    rw [hBB]
    exact (List.perm_append_comm).trans (List.filter_append_perm _ st)

/-- C9 counterexample: with oldName ≠ newName but the new name already
present, the swapped third application does not restore the original
state: renaming loadpoint `A` to `B` twice on a database whose only
session has loadpoint `B` changes nothing, and the swapped application
then renames that pre-existing `B` to `A`. -/
theorem C9_idempotence_counterexample :
    ((RenameLoadpoint (str "B") (str "A")
      ((RenameLoadpoint (str "A") (str "B")
        ((RenameLoadpoint (str "A") (str "B")
          (⟨[⟨str "B", none, 0⟩], [], []⟩ : DB)).2)).2)).2)
      ≠ ⟨[⟨str "B", none, 0⟩], [], []⟩ := by decide

/-- C9 (amended): for oldName ≠ newName, the second application of the
same rename reports zero relational and zero key/value counts (and
changes nothing), and a third application with the names swapped restores
the original database — the settings table up to row order for the
vehicle engine, whose key migration reinserts rows at the end — provided
the new name is nowhere present beforehand (sessions, matching settings
values/keys, config blobs), the config blobs satisfy the undo side
conditions (unique field names, well-behaved raw-text patterns), config
ids and settings keys are unique, and for the vehicle engine names and
keys are plain and neither per-asset prefix extends the other. -/
theorem C9_second_zero_swap_restores (old new : Str) (db : DB)
    (hne : old ≠ new)
    (habs_ls : ∀ r ∈ db.sessions, rowMatches .loadpoint new r = false)
    (habs_lt : ∀ kv ∈ db.settings,
      ¬(likeMatch (str "lp%.title") kv.key = true ∧ kv.value = new))
    (hcnd : (db.configs.map ConfigRow.id).Nodup)
    (hund5 : ∀ r ∈ db.configs, r.cls = 5 → cfgUndoable old new r.value = true)
    (hknd5 : ∀ r ∈ db.configs, r.cls = 5 → ∀ fs, r.value = .obj fs →
      (fs.map Prod.fst).Nodup)
    (habs_vs : ∀ r ∈ db.sessions, rowMatches .vehicle new r = false)
    (hpold : plainStr old = true) (hpnew : plainStr new = true)
    (hkeys : ∀ kv ∈ db.settings, plainStr kv.key = true)
    (hsknd : (db.settings.map Setting.key).Nodup)
    (hfresh : ∀ kv ∈ db.settings, (vehPre new).isPrefixOf kv.key = false)
    (hon : (vehPre old).isPrefixOf (vehPre new) = false)
    (hno : (vehPre new).isPrefixOf (vehPre old) = false)
    (hund3 : ∀ r ∈ db.configs, r.cls = 3 → cfgUndoable old new r.value = true)
    (hknd3 : ∀ r ∈ db.configs, r.cls = 3 → ∀ fs, r.value = .obj fs →
      (fs.map Prod.fst).Nodup) :
    ((RenameLoadpoint old new (RenameLoadpoint old new db).2).1.sessions = 0
      ∧ (RenameLoadpoint old new (RenameLoadpoint old new db).2).1.settings = 0
      ∧ (RenameLoadpoint new old
          (RenameLoadpoint old new (RenameLoadpoint old new db).2).2).2 = db)
    ∧ ((RenameVehicle old new (RenameVehicle old new db).2).1.sessions = 0
      ∧ (RenameVehicle old new (RenameVehicle old new db).2).1.settings = 0
      ∧ (RenameVehicle new old
          (RenameVehicle old new (RenameVehicle old new db).2).2).2.sessions
            = db.sessions
      ∧ List.Perm ((RenameVehicle new old
          (RenameVehicle old new (RenameVehicle old new db).2).2).2.settings)
          db.settings
      ∧ (RenameVehicle new old
          (RenameVehicle old new (RenameVehicle old new db).2).2).2.configs
            = db.configs) := by
  have HS := sessions_engine_roundtrip .loadpoint old new db.sessions hne habs_ls
  have HT := settingsValue_roundtrip (str "lp%.title") old new db.settings hne habs_lt
  have HC := configs_engine_roundtrip 5 old new db.configs hne hcnd hund5 hknd5
  have HV := sessions_engine_roundtrip .vehicle old new db.sessions hne habs_vs
  have HK := settingsKeys_roundtrip (vehPre old) (vehPre new) db.settings
    (plainStr_vehPre hpold) (plainStr_vehPre hpnew) hkeys hsknd hfresh hon hno
  have HC3 := configs_engine_roundtrip 3 old new db.configs hne hcnd hund3 hknd3
  constructor
  · refine ⟨?_, ?_, ?_⟩
    · unfold RenameLoadpoint
      simp only []
      exact HS.1
    · unfold RenameLoadpoint
      simp only []
      exact HT.1
    · unfold RenameLoadpoint
      simp only []
      rw [HS.2.1, HS.2.2, HT.2.1, HT.2.2, HC.1, HC.2]
  · refine ⟨?_, ?_, ?_, ?_, ?_⟩
    · unfold RenameVehicle
      simp only []
      exact HV.1
    · unfold RenameVehicle
      simp only []
      exact HK.1
    · unfold RenameVehicle
      simp only []
      rw [HV.2.1, HV.2.2]
    · unfold RenameVehicle
      simp only []
      rw [HK.2.1]
      exact HK.2.2
    · unfold RenameVehicle
      simp only []
      rw [HC3.1, HC3.2]

/-- C9 witness. -/
theorem C9_second_zero_swap_restores_witness :
    (RenameVehicle (str "b") (str "a")
        ((RenameVehicle (str "a") (str "b")
          ((RenameVehicle (str "a") (str "b")
            (⟨[⟨str "g", some (str "a"), 0⟩],
              [⟨str "vehicle.a.minsoc", str "25"⟩, ⟨str "lp1.title", str "a"⟩],
              [⟨1, 5, .obj [(str "title", .jstr (str "a"))], 0⟩,
               ⟨2, 3, .raw (str "title: a"), 0⟩]⟩ : DB)).2)).2)).2.sessions
      = [⟨str "g", some (str "a"), 0⟩] := by
  have h := (C9_second_zero_swap_restores (str "a") (str "b")
    ⟨[⟨str "g", some (str "a"), 0⟩],
      [⟨str "vehicle.a.minsoc", str "25"⟩, ⟨str "lp1.title", str "a"⟩],
      [⟨1, 5, .obj [(str "title", .jstr (str "a"))], 0⟩,
       ⟨2, 3, .raw (str "title: a"), 0⟩]⟩
    (by decide) (by decide) (by decide) (by decide) (by decide)
    (by
      intro r hm hcls fs hv
      rcases List.mem_cons.mp hm with h | h
      · subst h
        cases hv
        decide
      · rcases List.mem_cons.mp h with h2 | h2
        · subst h2
          cases hv
        · cases h2)
    (by decide) (by decide) (by decide) (by decide) (by decide) (by decide)
    (by decide) (by decide) (by decide)
    (by
      intro r hm hcls fs hv
      rcases List.mem_cons.mp hm with h | h
      · subst h
        cases hv
        decide
      · rcases List.mem_cons.mp h with h2 | h2
        · subst h2
          cases hv
        · cases h2)).2.2.2.1
  simpa using h

end Evccdb
